import Mathlib

set_option linter.unnecessarySeqFocus false
set_option linter.unreachableTactic false
set_option linter.unusedTactic false

/-!
Verification of the fiat-a2dp firmware specification against a shallow
embedding of its Rust sources.

The embedding models, faithfully to the source files:
  * `src/ringbuf.rs`   — the byte ring buffer (`RingBuf`);
  * `src/audio.rs`     — the audio buffer pair (`AudioBuffers`) with the
                         profile flag and watermark notifications;
  * `src/service.rs`   — the system record and service started-bit logic;
  * `src/signal.rs`    — the shared-state signal's `modify` / `recv` protocol;
  * `src/can.rs`       — the vehicle-bus message codec (payload types,
                         6-bit display text codec) and the receive-side
                         handlers (`process_recv_proxi`, `process_radio_mux`).

Machine integers are modelled as `Nat` (with explicit `% 2^w` where the
source truncates); byte slices as `List Nat`; Rust loops are totalized with
a structural fuel argument that is always called with enough fuel for the
loop as it appears in the source.
-/

namespace FiatA2dp

/-- The newest `n` elements of a list (the suffix of length `min n l.length`). -/
def tailN (n : Nat) (l : List Nat) : List Nat := l.drop (l.length - n)

theorem tailN_length (n : Nat) (l : List Nat) : (tailN n l).length = min n l.length := by
  simp only [tailN, List.length_drop]
  omega

theorem tailN_of_length_le (n : Nat) (l : List Nat) (h : l.length ≤ n) : tailN n l = l := by
  simp only [tailN]
  have : l.length - n = 0 := by omega
  simp [this]

theorem tailN_suffix (n : Nat) (l : List Nat) : tailN n l <:+ l := by
  exact List.drop_suffix _ _

theorem tailN_append_left (n : Nat) (a b : List Nat) (h : n ≤ b.length) :
    tailN n (a ++ b) = tailN n b := by
  simp only [tailN, List.length_append]
  rw [List.drop_append_eq_append_drop]
  have h1 : a.length ≤ a.length + b.length - n := by omega
  rw [List.drop_eq_nil_of_le h1]
  simp only [List.nil_append]
  congr 1
  omega

theorem tailN_idem_append (n : Nat) (a b : List Nat) :
    tailN n (tailN n a ++ b) = tailN n (a ++ b) := by
  have h1 : tailN n (tailN n a ++ b) <:+ a ++ b := by
    refine (tailN_suffix _ _).trans ?_
    obtain ⟨p, hp⟩ := tailN_suffix n a
    exact ⟨p, by rw [← List.append_assoc, hp]⟩
  have h2 : tailN n (a ++ b) <:+ a ++ b := tailN_suffix _ _
  have hl : (tailN n (tailN n a ++ b)).length = (tailN n (a ++ b)).length := by
    simp only [tailN_length, List.length_append]
    omega
  have e1 := List.suffix_iff_eq_drop.mp h1
  have e2 := List.suffix_iff_eq_drop.mp h2
  rw [e1, e2, hl]

/-! ## Ring buffer (`src/ringbuf.rs`)

`RingBuf` models the struct with fields `buf`, `start`, `end`, `empty`.
The field `end` is a Lean keyword, so it is spelled `end_`.  The storage is
modelled as the list `buf`; its initial (uninitialized) contents are the
contents of the list the buffer is created over. -/

structure RingBuf where
  buf : List Nat
  start : Nat
  end_ : Nat
  empty : Bool
deriving Repr, DecidableEq

namespace RingBuf

/-- `RingBuf::new` — an empty ring over the given storage. -/
def new (storage : List Nat) : RingBuf := ⟨storage, 0, 0, true⟩

/-- Capacity of the ring (`buf.len()`, called `buf_len()` in `audio.rs`). -/
def buf_len (rb : RingBuf) : Nat := rb.buf.length

/-- `RingBuf::len`. -/
def len (rb : RingBuf) : Nat :=
  if rb.empty then 0
  else if rb.start < rb.end_ then rb.end_ - rb.start
  else rb.buf.length + rb.end_ - rb.start

/-- `RingBuf::is_empty`. -/
def is_empty (rb : RingBuf) : Bool := rb.empty

/-- `RingBuf::is_full`. -/
def is_full (rb : RingBuf) : Bool := rb.start == rb.end_ && !rb.empty

/-- `RingBuf::clear`. -/
def clear (rb : RingBuf) : RingBuf := { rb with start := 0, end_ := 0, empty := true }

/-- `RingBuf::wrap` — wrap `start` and `end` past the end of the storage. -/
def wrap (rb : RingBuf) : RingBuf :=
  let rb := if rb.start = rb.buf.length then { rb with start := 0 } else rb
  if rb.end_ = rb.buf.length then { rb with end_ := 0 } else rb

/-- The body of one `while` iteration of `RingBuf::push`: copy the next
`len` bytes of `data` at `end`, advance `start` past the overwritten
region when it fell inside it (dropping the oldest bytes), advance `end`,
wrap, and mark non-empty — exactly the statements of the source loop. -/
def pushIter (rb : RingBuf) (len : Nat) (data : List Nat) : RingBuf :=
  wrap
    { buf := rb.buf.take rb.end_ ++ data.take len ++ rb.buf.drop (rb.end_ + len)
      start :=
        if !rb.empty && decide (rb.end_ ≤ rb.start) && decide (rb.start < rb.end_ + len) then
          rb.end_ + len
        else rb.start
      end_ := rb.end_ + len
      empty := false }

/-- The `while` loop of `RingBuf::push`, totalized by structural fuel.
The source loop copies `len = min(buf.len() - end, data.len() - offset)`
bytes per iteration; each iteration moves at least one byte whenever the
buffer invariant holds, so fuel `data.length` is always sufficient.  (A
zero `len` can only arise from a zero-capacity ring, on which the source
loop would not terminate.) -/
def pushLoop : Nat → RingBuf → List Nat → RingBuf
  | 0, rb, _ => rb
  | fuel + 1, rb, data =>
    if data.isEmpty then rb
    else if min (rb.buf.length - rb.end_) data.length = 0 then rb
    else
      pushLoop fuel (pushIter rb (min (rb.buf.length - rb.end_) data.length) data)
        (data.drop (min (rb.buf.length - rb.end_) data.length))

/-- `RingBuf::push` — never fails; drops the oldest bytes on overflow.
The source returns `self.len()`; the new length is `(rb.push data).len`. -/
def push (rb : RingBuf) (data : List Nat) : RingBuf :=
  pushLoop data.length rb data

/-- The number of bytes one `pop` iteration copies: up to the wrap point
or the end of the live region, bounded by the remaining output space `k`. -/
def popLen (rb : RingBuf) (k : Nat) : Nat :=
  min ((if rb.start < rb.end_ then rb.end_ else rb.buf.length) - rb.start) k

/-- The state part of one `while` iteration of `RingBuf::pop`: advance
`start`, wrap, and mark empty when `start` catches up with `end`. -/
def popIter (rb : RingBuf) (len : Nat) : RingBuf :=
  let rb1 := wrap { rb with start := rb.start + len }
  if rb1.start = rb1.end_ then { rb1 with empty := true } else rb1

/-- The `while` loop of `RingBuf::pop`, totalized by structural fuel.
`k` is the remaining space in the caller's output buffer; the accumulated
output is returned alongside the new state.  Each iteration pops at least
one byte whenever the invariant holds, so fuel `k` is always sufficient. -/
def popLoop : Nat → RingBuf → Nat → List Nat → List Nat × RingBuf
  | 0, rb, _, acc => (acc, rb)
  | fuel + 1, rb, k, acc =>
    if k = 0 || rb.empty then (acc, rb)
    else if popLen rb k = 0 then (acc, rb)
    else
      popLoop fuel (popIter rb (popLen rb k)) (k - popLen rb k)
        (acc ++ (rb.buf.drop rb.start).take (popLen rb k))

/-- `RingBuf::pop` into an output buffer of size `k`; returns the popped
bytes (the source returns their count and writes them into `out_buf`). -/
def pop (rb : RingBuf) (k : Nat) : List Nat × RingBuf :=
  popLoop k rb k []

/-- The abstract contents of the ring, oldest byte first. -/
def contents (rb : RingBuf) : List Nat :=
  if rb.empty then []
  else if rb.start < rb.end_ then (rb.buf.drop rb.start).take (rb.end_ - rb.start)
  else rb.buf.drop rb.start ++ rb.buf.take rb.end_

/-- The state invariant maintained by every ring operation from `new`. -/
def Inv (rb : RingBuf) : Prop :=
  0 < rb.buf.length ∧ rb.start < rb.buf.length ∧ rb.end_ < rb.buf.length ∧
    (rb.empty = true → rb.start = rb.end_)

instance (rb : RingBuf) : Decidable (Inv rb) := by
  unfold Inv
  infer_instance

theorem new_inv (storage : List Nat) (h : 0 < storage.length) : Inv (new storage) := by
  exact ⟨h, h, h, fun _ => rfl⟩

theorem contents_new (storage : List Nat) : contents (new storage) = [] := by
  simp [contents, new]

theorem contents_length_le (rb : RingBuf) (hInv : Inv rb) :
    rb.contents.length ≤ rb.buf.length := by
  obtain ⟨hN, hs, he, _⟩ := hInv
  by_cases hemp : rb.empty = true
  · simp [contents, hemp]
  · by_cases hlt : rb.start < rb.end_ <;>
      simp [contents, hemp, hlt, List.length_take, List.length_drop] <;> omega

theorem len_eq_contents_length (rb : RingBuf) (hInv : Inv rb) :
    rb.len = rb.contents.length := by
  obtain ⟨hN, hs, he, hemp⟩ := hInv
  by_cases h : rb.empty = true
  · simp [len, contents, h]
  · by_cases hlt : rb.start < rb.end_ <;>
      simp [len, contents, h, hlt, List.length_take, List.length_drop] <;> omega

theorem wrap_mk (buf : List Nat) (s e : Nat) (emp : Bool) :
    wrap ⟨buf, s, e, emp⟩ =
      ⟨buf, if s = buf.length then 0 else s, if e = buf.length then 0 else e, emp⟩ := by
  unfold wrap
  by_cases h1 : s = buf.length <;> by_cases h2 : e = buf.length <;> simp [h1, h2]

theorem Inv_mk (buf : List Nat) (s e : Nat) (emp : Bool) :
    Inv ⟨buf, s, e, emp⟩ ↔
      0 < buf.length ∧ s < buf.length ∧ e < buf.length ∧ (emp = true → s = e) := Iff.rfl

theorem contents_mk (buf : List Nat) (s e : Nat) :
    contents ⟨buf, s, e, false⟩ =
      if s < e then (buf.drop s).take (e - s) else buf.drop s ++ buf.take e := by
  simp [contents]

theorem pushIter_spec (rb : RingBuf) (len : Nat) (data : List Nat)
    (hInv : Inv rb) (hpos : 0 < len) (hle : len ≤ data.length)
    (hfit : rb.end_ + len ≤ rb.buf.length) :
    Inv (pushIter rb len data) ∧ (pushIter rb len data).buf.length = rb.buf.length ∧
      (pushIter rb len data).contents = tailN rb.buf.length (rb.contents ++ data.take len) := by
  obtain ⟨hN, hs, he, hemp⟩ := hInv
  have hcl : (data.take len).length = len := by rw [List.length_take]; omega
  have htk : (rb.buf.take rb.end_).length = rb.end_ := by rw [List.length_take]; omega
  have htkc : (rb.buf.take rb.end_ ++ data.take len).length = rb.end_ + len := by
    rw [List.length_append, htk, hcl]
  have hB : (rb.buf.take rb.end_ ++ data.take len ++ rb.buf.drop (rb.end_ + len)).length
      = rb.buf.length := by
    simp only [List.length_append, List.length_take, List.length_drop]
    omega
  have fDropE : (rb.buf.take rb.end_ ++ data.take len ++ rb.buf.drop (rb.end_ + len)).drop rb.end_
      = data.take len ++ rb.buf.drop (rb.end_ + len) := by
    rw [List.append_assoc]
    exact List.drop_left' htk
  have fDropEC :
      (rb.buf.take rb.end_ ++ data.take len ++ rb.buf.drop (rb.end_ + len)).drop (rb.end_ + len)
      = rb.buf.drop (rb.end_ + len) := List.drop_left' htkc
  have fTakeEC :
      (rb.buf.take rb.end_ ++ data.take len ++ rb.buf.drop (rb.end_ + len)).take (rb.end_ + len)
      = rb.buf.take rb.end_ ++ data.take len := List.take_left' htkc
  unfold pushIter
  rw [wrap_mk, hB]
  by_cases hempty : rb.empty = true
  · -- the buffer was empty: start = end, nothing is dropped
    have hse : rb.start = rb.end_ := hemp hempty
    have hcontents : rb.contents = [] := by simp [contents, hempty]
    have hsnw : ¬ rb.start = rb.buf.length := by omega
    have hcond :
        (!rb.empty && decide (rb.end_ ≤ rb.start) && decide (rb.start < rb.end_ + len))
          = false := by
      simp [hempty]
    rw [hcond, if_neg Bool.false_ne_true, if_neg hsnw]
    have htail : tailN rb.buf.length (rb.contents ++ data.take len) = data.take len := by
      rw [hcontents, List.nil_append]
      exact tailN_of_length_le _ _ (by omega)
    rw [htail]
    by_cases hwrapE : rb.end_ + len = rb.buf.length
    · rw [if_pos hwrapE]
      rw [Inv_mk, hB]
      refine ⟨⟨by omega, by omega, by omega, by simp⟩, rfl, ?_⟩
      rw [contents_mk, if_neg (by omega), List.take_zero, List.append_nil, hse,
        fDropE, hwrapE, List.drop_length, List.append_nil]
    · rw [if_neg hwrapE]
      rw [Inv_mk, hB]
      refine ⟨⟨by omega, by omega, by omega, by simp⟩, rfl, ?_⟩
      rw [contents_mk, if_pos (by omega), hse, fDropE]
      have h1 : rb.end_ + len - rb.end_ = len := by omega
      rw [h1, List.take_append_of_le_length (by omega), List.take_take, Nat.min_self]
  · -- non-empty buffer
    by_cases hlt : rb.start < rb.end_
    · -- start strictly before end: nothing is dropped
      have hcontents : rb.contents = (rb.buf.drop rb.start).take (rb.end_ - rb.start) := by
        simp [contents, hempty, hlt]
      have hsnw : ¬ rb.start = rb.buf.length := by omega
      have hcond :
          (!rb.empty && decide (rb.end_ ≤ rb.start) && decide (rb.start < rb.end_ + len))
            = false := by
        simp [hempty]
        omega
      rw [hcond, if_neg Bool.false_ne_true, if_neg hsnw]
      have fDropS :
          (rb.buf.take rb.end_ ++ data.take len ++ rb.buf.drop (rb.end_ + len)).drop rb.start
          = (rb.buf.drop rb.start).take (rb.end_ - rb.start)
            ++ (data.take len ++ rb.buf.drop (rb.end_ + len)) := by
        rw [List.append_assoc, List.drop_append_eq_append_drop, List.drop_take, htk]
        have h0 : rb.start - rb.end_ = 0 := by omega
        rw [h0, List.drop_zero]
      have hclen : ((rb.buf.drop rb.start).take (rb.end_ - rb.start)).length
          = rb.end_ - rb.start := by
        rw [List.length_take, List.length_drop]
        omega
      have htail : tailN rb.buf.length (rb.contents ++ data.take len)
          = rb.contents ++ data.take len := by
        apply tailN_of_length_le
        rw [List.length_append, hcontents, hclen, hcl]
        omega
      rw [htail]
      by_cases hwrapE : rb.end_ + len = rb.buf.length
      · rw [if_pos hwrapE]
        rw [Inv_mk, hB]
        refine ⟨⟨by omega, by omega, by omega, by simp⟩, rfl, ?_⟩
        rw [contents_mk, if_neg (by omega), List.take_zero, List.append_nil, fDropS,
          hcontents, hwrapE, List.drop_length, List.append_nil]
      · rw [if_neg hwrapE]
        rw [Inv_mk, hB]
        refine ⟨⟨by omega, by omega, by omega, by simp⟩, rfl, ?_⟩
        rw [contents_mk, if_pos (by omega), fDropS, hcontents]
        rw [List.take_append_eq_append_take, hclen]
        have h1 : rb.end_ + len - rb.start - (rb.end_ - rb.start) = len := by omega
        rw [h1, List.take_of_length_le (by rw [hclen]; omega),
          List.take_append_of_le_length (by omega), List.take_take, Nat.min_self]
    · -- start at or after end (wrapped contents)
      have hes : rb.end_ ≤ rb.start := by omega
      have hcontents : rb.contents = rb.buf.drop rb.start ++ rb.buf.take rb.end_ := by
        simp [contents, hempty, hlt]
      by_cases hdrop : rb.start < rb.end_ + len
      · -- the write overruns start: oldest bytes are dropped, ring becomes full
        have hcond :
            (!rb.empty && decide (rb.end_ ≤ rb.start) && decide (rb.start < rb.end_ + len))
              = true := by
          simp [hempty, hes, hdrop]
        rw [hcond, if_pos rfl]
        have htail : tailN rb.buf.length (rb.contents ++ data.take len)
            = rb.buf.drop (rb.end_ + len) ++ (rb.buf.take rb.end_ ++ data.take len) := by
          unfold tailN
          rw [hcontents]
          have hlen : ((rb.buf.drop rb.start ++ rb.buf.take rb.end_) ++ data.take len).length
              - rb.buf.length = rb.end_ + len - rb.start := by
            simp only [List.length_append, List.length_drop, List.length_take, hcl]
            omega
          rw [hlen, List.append_assoc, List.drop_append_eq_append_drop, List.drop_drop,
            List.length_drop]
          have h2 : rb.start + (rb.end_ + len - rb.start) = rb.end_ + len := by omega
          have h3 : rb.end_ + len - rb.start - (rb.buf.length - rb.start) = 0 := by omega
          rw [h2, h3, List.drop_zero]
        rw [htail]
        by_cases hwrapE : rb.end_ + len = rb.buf.length
        · rw [if_pos hwrapE]
          rw [Inv_mk, hB]
          refine ⟨⟨by omega, by omega, by omega, by simp⟩, rfl, ?_⟩
          rw [contents_mk, if_neg (by omega), List.drop_zero, List.take_zero,
            List.append_nil, hwrapE, List.drop_length, List.nil_append, List.append_nil]
        · rw [if_neg hwrapE]
          rw [Inv_mk, hB]
          refine ⟨⟨by omega, by omega, by omega, by simp⟩, rfl, ?_⟩
          rw [contents_mk, if_neg (by omega), fDropEC, fTakeEC]
      · -- the write does not reach start: nothing is dropped
        have hsle : rb.end_ + len ≤ rb.start := by omega
        have hcond :
            (!rb.empty && decide (rb.end_ ≤ rb.start) && decide (rb.start < rb.end_ + len))
              = false := by
          simp [hempty]
          omega
        rw [hcond, if_neg Bool.false_ne_true]
        have hsnw : ¬ rb.start = rb.buf.length := by omega
        have hwrapE : ¬ rb.end_ + len = rb.buf.length := by omega
        rw [if_neg hsnw, if_neg hwrapE]
        have htail : tailN rb.buf.length (rb.contents ++ data.take len)
            = rb.contents ++ data.take len := by
          apply tailN_of_length_le
          rw [List.length_append, hcontents, List.length_append, List.length_take,
            List.length_drop, hcl]
          omega
        rw [htail]
        rw [Inv_mk, hB]
        refine ⟨⟨by omega, by omega, by omega, by simp⟩, rfl, ?_⟩
        rw [contents_mk, if_neg (by omega)]
        have fDropS :
            (rb.buf.take rb.end_ ++ data.take len
              ++ rb.buf.drop (rb.end_ + len)).drop rb.start = rb.buf.drop rb.start := by
          have h4 : rb.start = (rb.end_ + len) + (rb.start - (rb.end_ + len)) := by omega
          rw [h4, ← List.drop_drop, fDropEC, List.drop_drop]
        rw [fDropS, fTakeEC, hcontents, List.append_assoc]

theorem pushLoop_zero (rb : RingBuf) (data : List Nat) : pushLoop 0 rb data = rb := rfl

theorem pushLoop_nil (fuel : Nat) (rb : RingBuf) : pushLoop fuel rb [] = rb := by
  cases fuel <;> rfl

theorem pushLoop_spec (fuel : Nat) :
    ∀ (rb : RingBuf) (data : List Nat), Inv rb → data.length ≤ fuel →
      Inv (pushLoop fuel rb data) ∧ (pushLoop fuel rb data).buf.length = rb.buf.length ∧
        (pushLoop fuel rb data).contents = tailN rb.buf.length (rb.contents ++ data) := by
  induction fuel with
  | zero =>
    intro rb data hInv hfuel
    have hd : data = [] := List.eq_nil_of_length_eq_zero (by omega)
    subst hd
    rw [pushLoop_zero, List.append_nil, tailN_of_length_le _ _ (contents_length_le rb hInv)]
    exact ⟨hInv, rfl, rfl⟩
  | succ fuel ih =>
    intro rb data hInv hfuel
    by_cases hde : data.isEmpty = true
    · have hd : data = [] := by cases data <;> simp_all
      subst hd
      rw [pushLoop_nil, List.append_nil, tailN_of_length_le _ _ (contents_length_le rb hInv)]
      exact ⟨hInv, rfl, rfl⟩
    · have hdpos : 0 < data.length := by cases data <;> simp_all
      have hN := hInv.1
      have he := hInv.2.2.1
      have hstep : pushLoop (fuel + 1) rb data
          = pushLoop fuel (pushIter rb (min (rb.buf.length - rb.end_) data.length) data)
              (data.drop (min (rb.buf.length - rb.end_) data.length)) := by
        conv_lhs => rw [pushLoop]
        rw [if_neg (by simp [hde]), if_neg (by omega)]
      rw [hstep]
      obtain ⟨hInv', hbl', hcnt'⟩ :=
        pushIter_spec rb (min (rb.buf.length - rb.end_) data.length) data hInv
          (by omega) (by omega) (by omega)
      obtain ⟨hInv'', hbl'', hcnt''⟩ :=
        ih (pushIter rb (min (rb.buf.length - rb.end_) data.length) data)
          (data.drop (min (rb.buf.length - rb.end_) data.length)) hInv'
          (by rw [List.length_drop]; omega)
      refine ⟨hInv'', by rw [hbl'', hbl'], ?_⟩
      rw [hcnt'', hcnt', hbl', tailN_idem_append, List.append_assoc, List.take_append_drop]

theorem push_spec (rb : RingBuf) (data : List Nat) (hInv : Inv rb) :
    Inv (rb.push data) ∧ (rb.push data).buf.length = rb.buf.length ∧
      (rb.push data).contents = tailN rb.buf.length (rb.contents ++ data) :=
  pushLoop_spec data.length rb data hInv (Nat.le_refl _)

theorem push_len (rb : RingBuf) (data : List Nat) (hInv : Inv rb) :
    (rb.push data).len = min (rb.contents.length + data.length) rb.buf.length := by
  obtain ⟨hInv', hbl', hcnt'⟩ := push_spec rb data hInv
  rw [len_eq_contents_length _ hInv', hcnt', tailN_length, List.length_append]
  omega

theorem popIter_spec (rb : RingBuf) (len : Nat) (hInv : Inv rb) (hne : rb.empty = false)
    (hpos : 0 < len)
    (hbound : rb.start + len ≤ (if rb.start < rb.end_ then rb.end_ else rb.buf.length)) :
    Inv (popIter rb len) ∧ (popIter rb len).buf = rb.buf ∧
      (popIter rb len).contents = rb.contents.drop len ∧
      (rb.buf.drop rb.start).take len = rb.contents.take len := by
  obtain ⟨hN, hs, he, hemp⟩ := hInv
  unfold popIter
  by_cases hlt : rb.start < rb.end_
  · -- the live region is contiguous
    rw [if_pos hlt] at hbound
    have hcontents : rb.contents = (rb.buf.drop rb.start).take (rb.end_ - rb.start) := by
      simp [contents, hne, hlt]
    have hchunk : (rb.buf.drop rb.start).take len = rb.contents.take len := by
      rw [hcontents, List.take_take]
      congr 1
      omega
    have hw : wrap { rb with start := rb.start + len }
        = ⟨rb.buf, rb.start + len, rb.end_, rb.empty⟩ := by
      show wrap ⟨rb.buf, rb.start + len, rb.end_, rb.empty⟩ = _
      rw [wrap_mk, if_neg (by omega), if_neg (by omega)]
    rw [hw, hne]
    dsimp only
    by_cases hcatch : rb.start + len = rb.end_
    · rw [if_pos hcatch, Inv_mk]
      refine ⟨⟨hN, by omega, he, fun _ => hcatch⟩, rfl, ?_, hchunk⟩
      have hlenc : rb.contents.length = rb.end_ - rb.start := by
        rw [hcontents, List.length_take, List.length_drop]
        omega
      rw [show contents ⟨rb.buf, rb.start + len, rb.end_, true⟩ = [] from by simp [contents],
        List.drop_eq_nil_of_le (by omega)]
    · rw [if_neg hcatch, Inv_mk]
      refine ⟨⟨hN, by omega, he, by simp⟩, rfl, ?_, hchunk⟩
      rw [contents_mk, if_pos (by omega), hcontents, List.drop_take, List.drop_drop]
      congr 1
      omega
  · -- the live region wraps past the end of the storage
    rw [if_neg hlt] at hbound
    have hes : rb.end_ ≤ rb.start := by omega
    have hcontents : rb.contents = rb.buf.drop rb.start ++ rb.buf.take rb.end_ := by
      simp [contents, hne, hlt]
    have hchunk : (rb.buf.drop rb.start).take len = rb.contents.take len := by
      rw [hcontents, List.take_append_of_le_length (by rw [List.length_drop]; omega)]
    have hdropc : rb.contents.drop len
        = rb.buf.drop (rb.start + len) ++ rb.buf.take rb.end_ := by
      rw [hcontents, List.drop_append_eq_append_drop, List.drop_drop, List.length_drop]
      have h0 : len - (rb.buf.length - rb.start) = 0 := by omega
      rw [h0, List.drop_zero]
    have hlenc : rb.contents.length = rb.buf.length - rb.start + rb.end_ := by
      rw [hcontents, List.length_append, List.length_drop, List.length_take]
      omega
    by_cases hwrapS : rb.start + len = rb.buf.length
    · -- start wraps to 0
      have hw : wrap { rb with start := rb.start + len }
          = ⟨rb.buf, 0, rb.end_, rb.empty⟩ := by
        show wrap ⟨rb.buf, rb.start + len, rb.end_, rb.empty⟩ = _
        rw [wrap_mk, if_pos hwrapS, if_neg (by omega)]
      rw [hw, hne]
      dsimp only
      by_cases he0 : rb.end_ = 0
      · rw [if_pos he0.symm, Inv_mk]
        refine ⟨⟨hN, hN, he, fun _ => he0.symm⟩, rfl, ?_, hchunk⟩
        rw [show contents ⟨rb.buf, 0, rb.end_, true⟩ = [] from by simp [contents],
          List.drop_eq_nil_of_le (by omega)]
      · rw [if_neg (by omega), Inv_mk]
        refine ⟨⟨hN, hN, he, by simp⟩, rfl, ?_, hchunk⟩
        rw [contents_mk, if_pos (by omega), hdropc, hwrapS, List.drop_length,
          List.nil_append, List.drop_zero, Nat.sub_zero]
    · -- start advances without wrapping
      have hw : wrap { rb with start := rb.start + len }
          = ⟨rb.buf, rb.start + len, rb.end_, rb.empty⟩ := by
        show wrap ⟨rb.buf, rb.start + len, rb.end_, rb.empty⟩ = _
        rw [wrap_mk, if_neg hwrapS, if_neg (by omega)]
      rw [hw, hne]
      dsimp only
      rw [if_neg (by omega), Inv_mk]
      refine ⟨⟨hN, by omega, he, by simp⟩, rfl, ?_, hchunk⟩
      rw [contents_mk, if_neg (by omega), hdropc]

theorem popLoop_zero (rb : RingBuf) (k : Nat) (acc : List Nat) :
    popLoop 0 rb k acc = (acc, rb) := rfl

theorem popLoop_spec (fuel : Nat) :
    ∀ (rb : RingBuf) (k : Nat) (acc : List Nat), Inv rb → k ≤ fuel →
      (popLoop fuel rb k acc).1 = acc ++ rb.contents.take k ∧
        Inv (popLoop fuel rb k acc).2 ∧ (popLoop fuel rb k acc).2.buf = rb.buf ∧
        (popLoop fuel rb k acc).2.contents = rb.contents.drop k := by
  induction fuel with
  | zero =>
    intro rb k acc hInv hfuel
    have hk : k = 0 := by omega
    subst hk
    rw [popLoop_zero]
    exact ⟨by rw [List.take_zero, List.append_nil], hInv, rfl, by rw [List.drop_zero]⟩
  | succ fuel ih =>
    intro rb k acc hInv hfuel
    by_cases hstop : (decide (k = 0) || rb.empty) = true
    · have hstep : popLoop (fuel + 1) rb k acc = (acc, rb) := by
        conv_lhs => rw [popLoop]
        rw [if_pos hstop]
      rw [hstep]
      have hcnil : rb.contents.take k = [] ∧ rb.contents.drop k = rb.contents := by
        rcases Bool.or_eq_true_iff.mp hstop with h | h
        · have : k = 0 := by simpa using h
          subst this
          exact ⟨by simp, by simp⟩
        · have : rb.contents = [] := by simp [contents, h]
          rw [this]
          exact ⟨by simp, by simp⟩
      rw [hcnil.1, hcnil.2, List.append_nil]
      exact ⟨rfl, hInv, rfl, rfl⟩
    · have hkpos : 0 < k := by
        rcases Nat.eq_zero_or_pos k with h | h
        · subst h
          simp at hstop
        · exact h
      have hne : rb.empty = false := by
        cases hrb : rb.empty
        · rfl
        · rw [hrb] at hstop
          simp at hstop
      obtain ⟨hN, hs, he, hemp⟩ := hInv
      have hLpos : 0 < popLen rb k := by
        unfold popLen
        by_cases hlt : rb.start < rb.end_ <;> simp [hlt] <;> omega
      have hLbound : rb.start + popLen rb k
          ≤ (if rb.start < rb.end_ then rb.end_ else rb.buf.length) := by
        unfold popLen
        by_cases hlt : rb.start < rb.end_ <;> simp [hlt] <;> omega
      have hstep : popLoop (fuel + 1) rb k acc
          = popLoop fuel (popIter rb (popLen rb k)) (k - popLen rb k)
              (acc ++ (rb.buf.drop rb.start).take (popLen rb k)) := by
        conv_lhs => rw [popLoop]
        rw [if_neg hstop, if_neg (by omega)]
      rw [hstep]
      obtain ⟨hInv', hbuf', hcnt', hchunk⟩ :=
        popIter_spec rb (popLen rb k) ⟨hN, hs, he, hemp⟩ hne hLpos hLbound
      obtain ⟨hout'', hInv'', hbuf'', hcnt''⟩ :=
        ih (popIter rb (popLen rb k)) (k - popLen rb k)
          (acc ++ (rb.buf.drop rb.start).take (popLen rb k)) hInv' (by omega)
      have hLk : popLen rb k ≤ k := by
        unfold popLen
        omega
      refine ⟨?_, hInv'', by rw [hbuf'', hbuf'], ?_⟩
      · rw [hout'', hcnt', hchunk, List.append_assoc]
        congr 1
        rw [← List.take_add]
        congr 1
        omega
      · rw [hcnt'', hcnt', List.drop_drop]
        congr 1
        omega

theorem pop_spec (rb : RingBuf) (k : Nat) (hInv : Inv rb) :
    (rb.pop k).1 = rb.contents.take k ∧ Inv (rb.pop k).2 ∧ (rb.pop k).2.buf = rb.buf ∧
      (rb.pop k).2.contents = rb.contents.drop k := by
  obtain ⟨h1, h2, h3, h4⟩ := popLoop_spec k rb k [] hInv (Nat.le_refl _)
  rw [List.nil_append] at h1
  exact ⟨h1, h2, h3, h4⟩

end RingBuf

/-- A client-visible ring-buffer operation: `push(data)` or `pop` into an
output buffer of size `k`. -/
inductive RBOp where
  | push (data : List Nat)
  | pop (k : Nat)

/-- Run a sequence of ring-buffer operations. -/
def RingBuf.runOps (rb : RingBuf) : List RBOp → RingBuf
  | [] => rb
  | RBOp.push d :: rest => (rb.push d).runOps rest
  | RBOp.pop k :: rest => (rb.pop k).2.runOps rest

/-- The concatenation of everything ever pushed by a sequence of operations. -/
def pushHistory : List RBOp → List Nat
  | [] => []
  | RBOp.push d :: rest => d ++ pushHistory rest
  | RBOp.pop _ :: rest => pushHistory rest

theorem RingBuf.runOps_nil (rb : RingBuf) : rb.runOps [] = rb := rfl

theorem RingBuf.runOps_push (rb : RingBuf) (d : List Nat) (rest : List RBOp) :
    rb.runOps (RBOp.push d :: rest) = (rb.push d).runOps rest := rfl

theorem RingBuf.runOps_pop (rb : RingBuf) (k : Nat) (rest : List RBOp) :
    rb.runOps (RBOp.pop k :: rest) = (rb.pop k).2.runOps rest := rfl

theorem suffix_append_right {a b : List Nat} (h : a <:+ b) (c : List Nat) :
    a ++ c <:+ b ++ c := by
  obtain ⟨p, hp⟩ := h
  exact ⟨p, by rw [← List.append_assoc, hp]⟩

theorem runOps_spec (ops : List RBOp) :
    ∀ (rb : RingBuf), RingBuf.Inv rb →
      RingBuf.Inv (rb.runOps ops) ∧ (rb.runOps ops).buf.length = rb.buf.length ∧
        (rb.runOps ops).contents <:+ rb.contents ++ pushHistory ops := by
  induction ops with
  | nil =>
    intro rb hInv
    rw [RingBuf.runOps_nil]
    exact ⟨hInv, rfl, by rw [pushHistory, List.append_nil]⟩
  | cons op rest ih =>
    intro rb hInv
    cases op with
    | push d =>
      rw [RingBuf.runOps_push]
      obtain ⟨hInv', hbl', hcnt'⟩ := RingBuf.push_spec rb d hInv
      obtain ⟨hInv'', hbl'', hsuf''⟩ := ih (rb.push d) hInv'
      refine ⟨hInv'', by rw [hbl'', hbl'], ?_⟩
      show (RingBuf.runOps (rb.push d) rest).contents <:+ rb.contents ++ (d ++ pushHistory rest)
      refine hsuf''.trans ?_
      rw [← List.append_assoc]
      refine suffix_append_right ?_ (pushHistory rest)
      rw [hcnt']
      exact tailN_suffix _ _
    | pop k =>
      rw [RingBuf.runOps_pop]
      obtain ⟨hpop1, hInv', hbuf', hcnt'⟩ := RingBuf.pop_spec rb k hInv
      obtain ⟨hInv'', hbl'', hsuf''⟩ := ih (rb.pop k).2 hInv'
      refine ⟨hInv'', by rw [hbl'', hbuf'], ?_⟩
      show (RingBuf.runOps (rb.pop k).2 rest).contents <:+ rb.contents ++ pushHistory rest
      refine hsuf''.trans ?_
      refine suffix_append_right ?_ (pushHistory rest)
      rw [hcnt']
      exact List.drop_suffix _ _

/-- Claim C2: `RingBuf::push` never fails and always writes the entire
input.  After any sequence of pushes and pops from a fresh ring the length
is at most the capacity and the live contents are a suffix of the
concatenated push history; a push whose input exceeds the free space
leaves the buffer full, holding exactly the newest `capacity` bytes of the
push history (oldest bytes dropped), and a subsequent `pop` into a buffer
of size `k` returns `min k capacity` bytes — the newest `capacity` bytes,
oldest first. -/
theorem ringbuf_push_overflow_newest (buf0 : List Nat) (h0 : 0 < buf0.length)
    (ops : List RBOp) (data : List Nat) (k : Nat)
    (hover : buf0.length - ((RingBuf.new buf0).runOps ops).len < data.length) :
    ((RingBuf.new buf0).runOps ops).len ≤ buf0.length ∧
      ((RingBuf.new buf0).runOps ops).contents <:+ pushHistory ops ∧
      (((RingBuf.new buf0).runOps ops).push data).len = buf0.length ∧
      (((RingBuf.new buf0).runOps ops).push data).contents
        = tailN buf0.length (pushHistory ops ++ data) ∧
      ((((RingBuf.new buf0).runOps ops).push data).pop k).1
        = (tailN buf0.length (pushHistory ops ++ data)).take k ∧
      ((((RingBuf.new buf0).runOps ops).push data).pop k).1.length
        = min k buf0.length := by
  obtain ⟨hInv, hbl, hsuf⟩ := runOps_spec ops (RingBuf.new buf0) (RingBuf.new_inv buf0 h0)
  rw [RingBuf.contents_new, List.nil_append] at hsuf
  have hnb : (RingBuf.new buf0).buf.length = buf0.length := rfl
  rw [hnb] at hbl
  have hcl := RingBuf.contents_length_le _ hInv
  have hlen := RingBuf.len_eq_contents_length _ hInv
  rw [hbl] at hcl
  have hlenle : ((RingBuf.new buf0).runOps ops).len ≤ buf0.length := by omega
  obtain ⟨hInv', hbl', hcnt'⟩ := RingBuf.push_spec _ data hInv
  have hplen := RingBuf.push_len _ data hInv
  rw [hbl] at hplen hcnt'
  -- the pushed buffer is full
  have hfull : (((RingBuf.new buf0).runOps ops).push data).len = buf0.length := by
    rw [hplen]
    omega
  -- its contents are the newest `capacity` bytes of the whole push history
  obtain ⟨pre, hpre⟩ := hsuf
  have hhist : pushHistory ops ++ data
      = pre ++ (((RingBuf.new buf0).runOps ops).contents ++ data) := by
    rw [← List.append_assoc, hpre]
  have hclen2 : buf0.length ≤ (((RingBuf.new buf0).runOps ops).contents ++ data).length := by
    rw [List.length_append]
    omega
  have hctail : (((RingBuf.new buf0).runOps ops).push data).contents
      = tailN buf0.length (pushHistory ops ++ data) := by
    rw [hcnt', hhist, tailN_append_left _ _ _ hclen2]
  have hc2len : (((RingBuf.new buf0).runOps ops).push data).contents.length = buf0.length := by
    rw [← RingBuf.len_eq_contents_length _ hInv', hfull]
  obtain ⟨hp1, _, _, _⟩ := RingBuf.pop_spec _ k hInv'
  refine ⟨hlenle, ⟨pre, hpre⟩, hfull, hctail, ?_, ?_⟩
  · rw [hp1, hctail]
  · rw [hp1, List.length_take, hc2len]

/-- Witness for C2 at a concrete instance: capacity 4, a prior push of
three bytes, then an overflowing push of three more. -/
theorem ringbuf_push_overflow_newest_witness :
    (0 < ([0, 0, 0, 0] : List Nat).length) ∧
      (([0, 0, 0, 0] : List Nat).length
        - ((RingBuf.new [0, 0, 0, 0]).runOps [RBOp.push [1, 2, 3]]).len < [4, 5, 6].length) ∧
      (((RingBuf.new [0, 0, 0, 0]).runOps [RBOp.push [1, 2, 3]]).push [4, 5, 6]).contents
        = [3, 4, 5, 6] := by
  refine ⟨by decide, by decide, ?_⟩
  have h := ringbuf_push_overflow_newest [0, 0, 0, 0] (by decide) [RBOp.push [1, 2, 3]]
    [4, 5, 6] 4 (by decide)
  rw [h.2.2.2.1]
  decide


/-! ## Audio buffer pair (`src/audio.rs`)

Two ring buffers plus the current profile flag `a2dp` (`true` = music,
`false` = voice).  Operations pass the profile tag they expect; a mismatch
makes the operation a no-op returning 0. -/

structure AudioBuffers where
  ringbuf_incoming : RingBuf
  ringbuf_outgoing : RingBuf
  a2dp : Bool
deriving Repr, DecidableEq

namespace AudioBuffers

/-- `AudioBuffers::is_a2dp`. -/
def is_a2dp (b : AudioBuffers) : Bool := b.a2dp

/-- `AudioBuffers::set_a2dp` — a profile change clears both rings. -/
def set_a2dp (b : AudioBuffers) (a2dp : Bool) : AudioBuffers :=
  if b.a2dp != a2dp then
    ⟨b.ringbuf_incoming.clear, b.ringbuf_outgoing.clear, a2dp⟩
  else b

/-- `AudioBuffers::is_incoming_above_watermark` — fill at or above
`capacity/3*2` in the music profile, `capacity/12*2` in the voice
profile, and the tag must match the current profile. -/
def is_incoming_above_watermark (b : AudioBuffers) (a2dp : Bool) : Bool :=
  b.a2dp == a2dp &&
    decide (b.ringbuf_incoming.len ≥
      (if a2dp then b.ringbuf_incoming.buf_len / 3 * 2
       else b.ringbuf_incoming.buf_len / 12 * 2))

/-- `AudioBuffers::is_outgoing_above_watermark` — voice profile only,
fill at or above `capacity/3*2`. -/
def is_outgoing_above_watermark (b : AudioBuffers) (a2dp : Bool) : Bool :=
  b.a2dp == a2dp && !a2dp &&
    decide (b.ringbuf_outgoing.len ≥ b.ringbuf_outgoing.buf_len / 3 * 2)

/-- The result of `AudioBuffers::push_incoming`: the new state, the
returned byte count, whether `AUDIO_BUFFERS_INCOMING_NOTIF.signal(())`
fired, and whether the caller-supplied `outgoing_notif` was invoked. -/
structure PushIncomingResult where
  buffers : AudioBuffers
  len : Nat
  incoming_notif : Bool
  outgoing_notif : Bool
deriving DecidableEq

/-- `AudioBuffers::push_incoming`. -/
def push_incoming (b : AudioBuffers) (data : List Nat) (a2dp : Bool) : PushIncomingResult :=
  if b.a2dp == a2dp && !data.isEmpty then
    let rin := b.ringbuf_incoming.push data
    let b' : AudioBuffers := ⟨rin, b.ringbuf_outgoing, b.a2dp⟩
    ⟨b', rin.len, b'.is_incoming_above_watermark a2dp, b'.is_outgoing_above_watermark a2dp⟩
  else ⟨b, 0, false, false⟩

/-- `AudioBuffers::pop_incoming` into an output buffer of size `k`. -/
def pop_incoming (b : AudioBuffers) (k : Nat) (a2dp : Bool) : List Nat × AudioBuffers :=
  if b.is_incoming_above_watermark a2dp then
    let r := b.ringbuf_incoming.pop k
    (r.1, ⟨r.2, b.ringbuf_outgoing, b.a2dp⟩)
  else ([], b)

/-- `AudioBuffers::push_outgoing`. -/
def push_outgoing (b : AudioBuffers) (data : List Nat) (a2dp : Bool) : Nat × AudioBuffers :=
  if b.a2dp == a2dp then
    let r := b.ringbuf_outgoing.push data
    (r.len, ⟨b.ringbuf_incoming, r, b.a2dp⟩)
  else (0, b)

/-- `AudioBuffers::pop_outgoing` into an output buffer of size `k`. -/
def pop_outgoing (b : AudioBuffers) (k : Nat) (a2dp : Bool) : List Nat × AudioBuffers :=
  if b.is_outgoing_above_watermark a2dp then
    let r := b.ringbuf_outgoing.pop k
    (r.1, ⟨b.ringbuf_incoming, r.2, b.a2dp⟩)
  else ([], b)

end AudioBuffers

/-- `create_audio_buffers` — fresh buffers, profile initially music. -/
def create_audio_buffers (incoming outgoing : List Nat) : AudioBuffers :=
  ⟨RingBuf.new incoming, RingBuf.new outgoing, true⟩

/-- A client-visible operation on the audio buffer pair, with the profile
tag the caller passes. -/
inductive AudioOp where
  | pushIncoming (data : List Nat) (a2dp : Bool)
  | popIncoming (k : Nat) (a2dp : Bool)
  | pushOutgoing (data : List Nat) (a2dp : Bool)
  | popOutgoing (k : Nat) (a2dp : Bool)
  | setProfile (a2dp : Bool)

/-- A pop observed during a trace: which ring, the tag passed, the bytes
returned. -/
structure PopEvent where
  incoming : Bool
  tag : Bool
  bytes : List Nat

/-- Run a trace of audio operations, collecting every pop's output. -/
def AudioBuffers.runAudio (b : AudioBuffers) : List AudioOp → AudioBuffers × List PopEvent
  | [] => (b, [])
  | AudioOp.pushIncoming d t :: rest => (b.push_incoming d t).buffers.runAudio rest
  | AudioOp.popIncoming k t :: rest =>
    let r := b.pop_incoming k t
    let rr := r.2.runAudio rest
    (rr.1, ⟨true, t, r.1⟩ :: rr.2)
  | AudioOp.pushOutgoing d t :: rest => (b.push_outgoing d t).2.runAudio rest
  | AudioOp.popOutgoing k t :: rest =>
    let r := b.pop_outgoing k t
    let rr := r.2.runAudio rest
    (rr.1, ⟨false, t, r.1⟩ :: rr.2)
  | AudioOp.setProfile p :: rest => (b.set_a2dp p).runAudio rest

/-- All bytes submitted to `push_incoming` under profile tag `p`. -/
def pushedIncoming (p : Bool) : List AudioOp → List Nat
  | [] => []
  | AudioOp.pushIncoming d t :: rest => (if t = p then d else []) ++ pushedIncoming p rest
  | _ :: rest => pushedIncoming p rest

/-- All bytes submitted to `push_outgoing` under profile tag `p`. -/
def pushedOutgoing (p : Bool) : List AudioOp → List Nat
  | [] => []
  | AudioOp.pushOutgoing d t :: rest => (if t = p then d else []) ++ pushedOutgoing p rest
  | _ :: rest => pushedOutgoing p rest

/-- Both rings satisfy the ring-buffer invariant. -/
def AudioInv (b : AudioBuffers) : Prop :=
  RingBuf.Inv b.ringbuf_incoming ∧ RingBuf.Inv b.ringbuf_outgoing

theorem RingBuf.contents_clear (rb : RingBuf) : rb.clear.contents = [] := by
  simp [RingBuf.clear, RingBuf.contents]

theorem RingBuf.clear_inv (rb : RingBuf) (hInv : RingBuf.Inv rb) : RingBuf.Inv rb.clear :=
  ⟨hInv.1, hInv.1, hInv.1, fun _ => rfl⟩

theorem AudioBuffers.runAudio_nil (b : AudioBuffers) : b.runAudio [] = (b, []) := rfl

theorem beq_bool_eq {a b : Bool} (h : (a == b) = true) : a = b := by
  cases a <;> cases b <;> simp_all

theorem runAudio_sound (ops : List AudioOp) :
    ∀ (b : AudioBuffers) (accIn accOut : Bool → List Nat),
      AudioInv b →
      (∀ x ∈ b.ringbuf_incoming.contents, x ∈ accIn b.a2dp) →
      (∀ x ∈ b.ringbuf_outgoing.contents, x ∈ accOut b.a2dp) →
      ∀ ev ∈ (b.runAudio ops).2, ∀ x ∈ ev.bytes,
        (ev.incoming = true → x ∈ accIn ev.tag ++ pushedIncoming ev.tag ops) ∧
        (ev.incoming = false → x ∈ accOut ev.tag ++ pushedOutgoing ev.tag ops) := by
  induction ops with
  | nil =>
    intro b accIn accOut _ _ _ ev hev
    rw [AudioBuffers.runAudio_nil] at hev
    cases hev
  | cons op rest ih =>
    intro b accIn accOut hInv haccIn haccOut ev hev
    cases op with
    | pushIncoming d t =>
      rw [show b.runAudio (AudioOp.pushIncoming d t :: rest)
          = (b.push_incoming d t).buffers.runAudio rest from rfl] at hev
      by_cases hg : (b.a2dp == t && !d.isEmpty) = true
      · have hba : b.a2dp = t := beq_bool_eq (Bool.and_eq_true_iff.mp hg).1
        have hbuf : (b.push_incoming d t).buffers
            = ⟨b.ringbuf_incoming.push d, b.ringbuf_outgoing, b.a2dp⟩ := by
          rw [AudioBuffers.push_incoming, if_pos hg]
        rw [hbuf] at hev
        obtain ⟨hInv', _, hcnt'⟩ := RingBuf.push_spec b.ringbuf_incoming d hInv.1
        have step := ih ⟨b.ringbuf_incoming.push d, b.ringbuf_outgoing, b.a2dp⟩
          (fun p => accIn p ++ (if t = p then d else [])) accOut ⟨hInv', hInv.2⟩
          (by
            intro x hx
            dsimp only at hx ⊢
            rw [hcnt'] at hx
            have hx' := (tailN_suffix _ _).subset hx
            rcases List.mem_append.mp hx' with h | h
            · exact List.mem_append_left _ (haccIn x h)
            · rw [if_pos hba.symm]
              exact List.mem_append_right _ h)
          (by
            intro x hx
            exact haccOut x hx)
          ev hev
        intro x hx
        obtain ⟨h1, h2⟩ := step x hx
        constructor
        · intro hinc
          have := h1 hinc
          rw [show pushedIncoming ev.tag (AudioOp.pushIncoming d t :: rest)
              = (if t = ev.tag then d else []) ++ pushedIncoming ev.tag rest from rfl]
          rw [← List.append_assoc]
          exact this
        · intro hinc
          exact h2 hinc
      · have hbuf : (b.push_incoming d t).buffers = b := by
          rw [AudioBuffers.push_incoming, if_neg hg]
        rw [hbuf] at hev
        have step := ih b (fun p => accIn p ++ (if t = p then d else [])) accOut hInv
          (fun x hx => List.mem_append_left _ (haccIn x hx)) haccOut ev hev
        intro x hx
        obtain ⟨h1, h2⟩ := step x hx
        refine ⟨fun hinc => ?_, h2⟩
        have := h1 hinc
        rw [show pushedIncoming ev.tag (AudioOp.pushIncoming d t :: rest)
            = (if t = ev.tag then d else []) ++ pushedIncoming ev.tag rest from rfl]
        rw [← List.append_assoc]
        exact this
    | popIncoming k t =>
      rw [show (b.runAudio (AudioOp.popIncoming k t :: rest)).2
          = ⟨true, t, (b.pop_incoming k t).1⟩ :: ((b.pop_incoming k t).2.runAudio rest).2
          from rfl] at hev
      have hstate : AudioInv (b.pop_incoming k t).2 ∧
          (b.pop_incoming k t).2.a2dp = b.a2dp ∧
          (∀ x ∈ (b.pop_incoming k t).2.ringbuf_incoming.contents,
            x ∈ b.ringbuf_incoming.contents) ∧
          (b.pop_incoming k t).2.ringbuf_outgoing = b.ringbuf_outgoing := by
        by_cases hg : b.is_incoming_above_watermark t = true
        · obtain ⟨_, hInv', _, hcnt'⟩ := RingBuf.pop_spec b.ringbuf_incoming k hInv.1
          rw [AudioBuffers.pop_incoming, if_pos hg]
          refine ⟨⟨hInv', hInv.2⟩, rfl, ?_, rfl⟩
          intro x hx
          dsimp only at hx
          rw [hcnt'] at hx
          exact (List.drop_suffix _ _).subset hx
        · rw [AudioBuffers.pop_incoming, if_neg hg]
          exact ⟨hInv, rfl, fun x hx => hx, rfl⟩
      rcases List.mem_cons.mp hev with hhd | htl
      · subst hhd
        intro x hx
        dsimp only at hx ⊢
        refine ⟨fun _ => ?_, fun h => by simp at h⟩
        by_cases hg : b.is_incoming_above_watermark t = true
        · have hba : b.a2dp = t := by
            have := (Bool.and_eq_true_iff.mp hg).1
            exact beq_bool_eq this
          obtain ⟨hp1, _, _, _⟩ := RingBuf.pop_spec b.ringbuf_incoming k hInv.1
          rw [AudioBuffers.pop_incoming, if_pos hg] at hx
          dsimp only at hx
          rw [hp1] at hx
          have hx' := List.take_subset _ _ hx
          refine List.mem_append_left _ ?_
          rw [← hba]
          exact haccIn x hx'
        · rw [AudioBuffers.pop_incoming, if_neg hg] at hx
          cases hx
      · have step := ih (b.pop_incoming k t).2 accIn accOut hstate.1
          (by rw [hstate.2.1]; exact fun x hx => haccIn x (hstate.2.2.1 x hx))
          (by rw [hstate.2.1, hstate.2.2.2]; exact haccOut)
          ev htl
        intro x hx
        exact step x hx
    | pushOutgoing d t =>
      rw [show b.runAudio (AudioOp.pushOutgoing d t :: rest)
          = (b.push_outgoing d t).2.runAudio rest from rfl] at hev
      by_cases hg : (b.a2dp == t) = true
      · have hba : b.a2dp = t := beq_bool_eq hg
        have hbuf : (b.push_outgoing d t).2
            = ⟨b.ringbuf_incoming, b.ringbuf_outgoing.push d, b.a2dp⟩ := by
          rw [AudioBuffers.push_outgoing, if_pos hg]
        rw [hbuf] at hev
        obtain ⟨hInv', _, hcnt'⟩ := RingBuf.push_spec b.ringbuf_outgoing d hInv.2
        have step := ih ⟨b.ringbuf_incoming, b.ringbuf_outgoing.push d, b.a2dp⟩
          accIn (fun p => accOut p ++ (if t = p then d else [])) ⟨hInv.1, hInv'⟩
          (fun x hx => haccIn x hx)
          (by
            intro x hx
            dsimp only at hx ⊢
            rw [hcnt'] at hx
            have hx' := (tailN_suffix _ _).subset hx
            rcases List.mem_append.mp hx' with h | h
            · exact List.mem_append_left _ (haccOut x h)
            · rw [if_pos hba.symm]
              exact List.mem_append_right _ h)
          ev hev
        intro x hx
        obtain ⟨h1, h2⟩ := step x hx
        refine ⟨h1, fun hinc => ?_⟩
        have := h2 hinc
        rw [show pushedOutgoing ev.tag (AudioOp.pushOutgoing d t :: rest)
            = (if t = ev.tag then d else []) ++ pushedOutgoing ev.tag rest from rfl]
        rw [← List.append_assoc]
        exact this
      · have hbuf : (b.push_outgoing d t).2 = b := by
          rw [AudioBuffers.push_outgoing, if_neg hg]
        rw [hbuf] at hev
        have step := ih b accIn (fun p => accOut p ++ (if t = p then d else [])) hInv
          haccIn (fun x hx => List.mem_append_left _ (haccOut x hx)) ev hev
        intro x hx
        obtain ⟨h1, h2⟩ := step x hx
        refine ⟨h1, fun hinc => ?_⟩
        have := h2 hinc
        rw [show pushedOutgoing ev.tag (AudioOp.pushOutgoing d t :: rest)
            = (if t = ev.tag then d else []) ++ pushedOutgoing ev.tag rest from rfl]
        rw [← List.append_assoc]
        exact this
    | popOutgoing k t =>
      rw [show (b.runAudio (AudioOp.popOutgoing k t :: rest)).2
          = ⟨false, t, (b.pop_outgoing k t).1⟩ :: ((b.pop_outgoing k t).2.runAudio rest).2
          from rfl] at hev
      have hstate : AudioInv (b.pop_outgoing k t).2 ∧
          (b.pop_outgoing k t).2.a2dp = b.a2dp ∧
          (∀ x ∈ (b.pop_outgoing k t).2.ringbuf_outgoing.contents,
            x ∈ b.ringbuf_outgoing.contents) ∧
          (b.pop_outgoing k t).2.ringbuf_incoming = b.ringbuf_incoming := by
        by_cases hg : b.is_outgoing_above_watermark t = true
        · obtain ⟨_, hInv', _, hcnt'⟩ := RingBuf.pop_spec b.ringbuf_outgoing k hInv.2
          rw [AudioBuffers.pop_outgoing, if_pos hg]
          refine ⟨⟨hInv.1, hInv'⟩, rfl, ?_, rfl⟩
          intro x hx
          dsimp only at hx
          rw [hcnt'] at hx
          exact (List.drop_suffix _ _).subset hx
        · rw [AudioBuffers.pop_outgoing, if_neg hg]
          exact ⟨hInv, rfl, fun x hx => hx, rfl⟩
      rcases List.mem_cons.mp hev with hhd | htl
      · subst hhd
        intro x hx
        dsimp only at hx ⊢
        refine ⟨fun h => by simp at h, fun _ => ?_⟩
        by_cases hg : b.is_outgoing_above_watermark t = true
        · have hba : b.a2dp = t := by
            have h1 := (Bool.and_eq_true_iff.mp hg).1
            exact beq_bool_eq (Bool.and_eq_true_iff.mp h1).1
          obtain ⟨hp1, _, _, _⟩ := RingBuf.pop_spec b.ringbuf_outgoing k hInv.2
          rw [AudioBuffers.pop_outgoing, if_pos hg] at hx
          dsimp only at hx
          rw [hp1] at hx
          have hx' := List.take_subset _ _ hx
          refine List.mem_append_left _ ?_
          rw [← hba]
          exact haccOut x hx'
        · rw [AudioBuffers.pop_outgoing, if_neg hg] at hx
          cases hx
      · have step := ih (b.pop_outgoing k t).2 accIn accOut hstate.1
          (by rw [hstate.2.1, hstate.2.2.2]; exact haccIn)
          (by rw [hstate.2.1]; exact fun x hx => haccOut x (hstate.2.2.1 x hx))
          ev htl
        intro x hx
        exact step x hx
    | setProfile p =>
      rw [show b.runAudio (AudioOp.setProfile p :: rest)
          = (b.set_a2dp p).runAudio rest from rfl] at hev
      by_cases hp : (b.a2dp != p) = true
      · have hbuf : b.set_a2dp p
            = ⟨b.ringbuf_incoming.clear, b.ringbuf_outgoing.clear, p⟩ := by
          rw [AudioBuffers.set_a2dp, if_pos hp]
        rw [hbuf] at hev
        have step := ih ⟨b.ringbuf_incoming.clear, b.ringbuf_outgoing.clear, p⟩
          accIn accOut ⟨RingBuf.clear_inv _ hInv.1, RingBuf.clear_inv _ hInv.2⟩
          (by
            intro x hx
            dsimp only at hx
            rw [RingBuf.contents_clear] at hx
            cases hx)
          (by
            intro x hx
            dsimp only at hx
            rw [RingBuf.contents_clear] at hx
            cases hx)
          ev hev
        intro x hx
        exact step x hx
      · have hbuf : b.set_a2dp p = b := by
          rw [AudioBuffers.set_a2dp, if_neg hp]
        rw [hbuf] at hev
        intro x hx
        exact ih b accIn accOut hInv haccIn haccOut ev hev x hx

/-- Claim C3: profile safety of the audio buffer pair.  (1) In every trace
of `push_incoming` / `pop_incoming` / `push_outgoing` / `pop_outgoing` /
`set_profile` operations from fresh buffers, every byte returned by a pop
performed under profile tag `p` was pushed by an earlier push under the
same tag `p` — no byte pushed under one profile is ever returned by a pop
under the other.  (2) Operations whose profile tag does not match the
current profile return 0 without touching the rings, and (3) a
`set_profile` that changes the profile clears both rings. -/
theorem audio_profile_safety (incoming outgoing : List Nat)
    (hin : 0 < incoming.length) (hout : 0 < outgoing.length) (ops : List AudioOp) :
    (∀ ev ∈ ((create_audio_buffers incoming outgoing).runAudio ops).2, ∀ x ∈ ev.bytes,
        (ev.incoming = true → x ∈ pushedIncoming ev.tag ops) ∧
        (ev.incoming = false → x ∈ pushedOutgoing ev.tag ops)) ∧
    (∀ (b : AudioBuffers) (data : List Nat) (t : Bool), (b.a2dp == t) = false →
        b.push_incoming data t = ⟨b, 0, false, false⟩ ∧ b.push_outgoing data t = (0, b)) ∧
    (∀ (b : AudioBuffers) (k : Nat) (t : Bool), (b.a2dp == t) = false →
        b.pop_incoming k t = ([], b) ∧ b.pop_outgoing k t = ([], b)) ∧
    (∀ (b : AudioBuffers) (p : Bool), (b.a2dp != p) = true →
        b.set_a2dp p = ⟨b.ringbuf_incoming.clear, b.ringbuf_outgoing.clear, p⟩) := by
  refine ⟨?_, ?_, ?_, ?_⟩
  · intro ev hev x hx
    have h := runAudio_sound ops (create_audio_buffers incoming outgoing)
      (fun _ => []) (fun _ => [])
      ⟨RingBuf.new_inv incoming hin, RingBuf.new_inv outgoing hout⟩
      (by
        intro x hx
        rw [show (create_audio_buffers incoming outgoing).ringbuf_incoming
            = RingBuf.new incoming from rfl, RingBuf.contents_new] at hx
        cases hx)
      (by
        intro x hx
        rw [show (create_audio_buffers incoming outgoing).ringbuf_outgoing
            = RingBuf.new outgoing from rfl, RingBuf.contents_new] at hx
        cases hx)
      ev hev x hx
    rw [List.nil_append, List.nil_append] at h
    exact h
  · intro b data t hg
    constructor
    · rw [AudioBuffers.push_incoming, if_neg (by simp [hg])]
    · rw [AudioBuffers.push_outgoing, if_neg (by simp [hg])]
  · intro b k t hg
    constructor
    · rw [AudioBuffers.pop_incoming,
        if_neg (by simp [AudioBuffers.is_incoming_above_watermark, hg])]
    · rw [AudioBuffers.pop_outgoing,
        if_neg (by simp [AudioBuffers.is_outgoing_above_watermark, hg])]
  · intro b p hp
    rw [AudioBuffers.set_a2dp, if_pos hp]

/-- Witness for C3 at a concrete trace: a music push, a mismatched voice
push, a profile switch and a voice-side pop. -/
theorem audio_profile_safety_witness :
    (0 < (List.replicate 6 0 : List Nat).length) ∧
      (0 < (List.replicate 6 0 : List Nat).length) ∧
      (∀ ev ∈ ((create_audio_buffers (List.replicate 6 0) (List.replicate 6 0)).runAudio
          [AudioOp.pushIncoming [1, 2, 3, 4] true, AudioOp.popIncoming 2 true,
            AudioOp.setProfile false, AudioOp.pushIncoming [7] false]).2, ∀ x ∈ ev.bytes,
        (ev.incoming = true → x ∈ pushedIncoming ev.tag
          [AudioOp.pushIncoming [1, 2, 3, 4] true, AudioOp.popIncoming 2 true,
            AudioOp.setProfile false, AudioOp.pushIncoming [7] false]) ∧
        (ev.incoming = false → x ∈ pushedOutgoing ev.tag
          [AudioOp.pushIncoming [1, 2, 3, 4] true, AudioOp.popIncoming 2 true,
            AudioOp.setProfile false, AudioOp.pushIncoming [7] false])) :=
  ⟨by decide, by decide,
    (audio_profile_safety (List.replicate 6 0) (List.replicate 6 0)
      (by decide) (by decide) _).1⟩

/-- Counterexample to claim C7 as stated: with a 6-byte incoming ring in
the music profile (watermark `6/3*2 = 4`), a push of 4 bytes reaches the
watermark and raises the incoming-ready signal; a further 1-byte push
leaves the fill on the same (upper) side of the watermark, yet the signal
is raised again — the source signals on every push that ends at or above
the watermark, not only on upward crossings. -/
theorem push_incoming_notif_counterexample :
    ((create_audio_buffers (List.replicate 6 0) (List.replicate 6 0)).push_incoming
        [1, 2, 3, 4] true).incoming_notif = true ∧
      ((create_audio_buffers (List.replicate 6 0) (List.replicate 6 0)).push_incoming
          [1, 2, 3, 4] true).buffers.ringbuf_incoming.len ≥ 6 / 3 * 2 ∧
      (((create_audio_buffers (List.replicate 6 0) (List.replicate 6 0)).push_incoming
          [1, 2, 3, 4] true).buffers.push_incoming [5] true).buffers.ringbuf_incoming.len
        ≥ 6 / 3 * 2 ∧
      (((create_audio_buffers (List.replicate 6 0) (List.replicate 6 0)).push_incoming
          [1, 2, 3, 4] true).buffers.push_incoming [5] true).incoming_notif = true := by
  decide

/-- Claim C7 (amended): `push_incoming` raises the internal incoming-ready
signal exactly when the profile tag matches, the data is non-empty, and
the resulting fill `min (len + |data|) capacity` is at or above the
watermark (`capacity/3*2` for music, `capacity/12*2` for voice) — i.e. on
every push that ends at or above the watermark, whether or not it crossed
it. -/
theorem push_incoming_notif_eq (b : AudioBuffers) (data : List Nat) (t : Bool)
    (hInv : RingBuf.Inv b.ringbuf_incoming) :
    (b.push_incoming data t).incoming_notif =
      (b.a2dp == t && !data.isEmpty &&
        decide ((if t then b.ringbuf_incoming.buf_len / 3 * 2
            else b.ringbuf_incoming.buf_len / 12 * 2)
          ≤ min (b.ringbuf_incoming.len + data.length) b.ringbuf_incoming.buf_len)) := by
  by_cases hg : (b.a2dp == t && !data.isEmpty) = true
  · rw [AudioBuffers.push_incoming, if_pos hg, hg, Bool.true_and]
    have hba : b.a2dp = t := beq_bool_eq (Bool.and_eq_true_iff.mp hg).1
    show AudioBuffers.is_incoming_above_watermark _ t = _
    rw [AudioBuffers.is_incoming_above_watermark]
    dsimp only
    rw [hba, beq_self_eq_true, Bool.true_and]
    obtain ⟨hInv', hbl', _⟩ := RingBuf.push_spec b.ringbuf_incoming data hInv
    have hplen := RingBuf.push_len b.ringbuf_incoming data hInv
    have hlen := RingBuf.len_eq_contents_length b.ringbuf_incoming hInv
    rw [show (b.ringbuf_incoming.push data).buf_len
        = (b.ringbuf_incoming.push data).buf.length from rfl, hbl', hplen,
      show b.ringbuf_incoming.buf_len = b.ringbuf_incoming.buf.length from rfl, hlen]
  · have hg' : (b.a2dp == t && !data.isEmpty) = false := by
      cases h : (b.a2dp == t && !data.isEmpty)
      · rfl
      · exact absurd h hg
    rw [AudioBuffers.push_incoming, if_neg hg]
    dsimp only
    rw [hg', Bool.false_and]

/-- Witness for C7 (amended) at a concrete input. -/
theorem push_incoming_notif_eq_witness :
    RingBuf.Inv (create_audio_buffers (List.replicate 6 0)
        (List.replicate 6 0)).ringbuf_incoming ∧
      ((create_audio_buffers (List.replicate 6 0) (List.replicate 6 0)).push_incoming
          [1, 2, 3, 4] true).incoming_notif =
        (((create_audio_buffers (List.replicate 6 0)
            (List.replicate 6 0)).a2dp == true) && !([1, 2, 3, 4] : List Nat).isEmpty &&
          decide ((if true then (create_audio_buffers (List.replicate 6 0)
                (List.replicate 6 0)).ringbuf_incoming.buf_len / 3 * 2
              else (create_audio_buffers (List.replicate 6 0)
                (List.replicate 6 0)).ringbuf_incoming.buf_len / 12 * 2)
            ≤ min ((create_audio_buffers (List.replicate 6 0)
                  (List.replicate 6 0)).ringbuf_incoming.len + ([1, 2, 3, 4] : List Nat).length)
                (create_audio_buffers (List.replicate 6 0)
                  (List.replicate 6 0)).ringbuf_incoming.buf_len)) :=
  ⟨by decide,
    push_incoming_notif_eq (create_audio_buffers (List.replicate 6 0) (List.replicate 6 0))
      [1, 2, 3, 4] true (by decide)⟩

/-- Claim C9: `pop_incoming` and `pop_outgoing` return 0 whenever the
corresponding ring's fill is strictly below its watermark — even when the
supplied profile tag matches the current profile and the ring is
non-empty — and `pop_outgoing` always returns 0 while the profile is
music. -/
theorem pop_below_watermark_returns_zero :
    (∀ (b : AudioBuffers) (k : Nat) (t : Bool),
        b.ringbuf_incoming.len < (if t then b.ringbuf_incoming.buf_len / 3 * 2
          else b.ringbuf_incoming.buf_len / 12 * 2) →
        b.pop_incoming k t = ([], b)) ∧
      (∀ (b : AudioBuffers) (k : Nat) (t : Bool),
          b.ringbuf_outgoing.len < b.ringbuf_outgoing.buf_len / 3 * 2 →
          b.pop_outgoing k t = ([], b)) ∧
      (∀ (b : AudioBuffers) (k : Nat) (t : Bool), b.a2dp = true →
          b.pop_outgoing k t = ([], b)) := by
  refine ⟨?_, ?_, ?_⟩
  · intro b k t hlt
    rw [AudioBuffers.pop_incoming,
      if_neg (by simp [AudioBuffers.is_incoming_above_watermark]; omega)]
  · intro b k t hlt
    rw [AudioBuffers.pop_outgoing,
      if_neg (by simp [AudioBuffers.is_outgoing_above_watermark]; omega)]
  · intro b k t hb
    rw [AudioBuffers.pop_outgoing,
      if_neg (by cases t <;> simp [AudioBuffers.is_outgoing_above_watermark, hb])]

/-- Witness for C9: a non-empty music-profile ring one byte below nothing
like the watermark still pops zero bytes, and the outgoing ring pops zero
in the music profile. -/
theorem pop_below_watermark_returns_zero_witness :
    (((create_audio_buffers (List.replicate 6 0) (List.replicate 6 0)).push_incoming
          [9] true).buffers.ringbuf_incoming.len <
        (if true then ((create_audio_buffers (List.replicate 6 0)
            (List.replicate 6 0)).push_incoming [9] true).buffers.ringbuf_incoming.buf_len / 3 * 2
          else ((create_audio_buffers (List.replicate 6 0)
            (List.replicate 6 0)).push_incoming
              [9] true).buffers.ringbuf_incoming.buf_len / 12 * 2)) ∧
      (((create_audio_buffers (List.replicate 6 0) (List.replicate 6 0)).push_incoming
          [9] true).buffers.pop_incoming 3 true
        = ([], ((create_audio_buffers (List.replicate 6 0)
            (List.replicate 6 0)).push_incoming [9] true).buffers)) ∧
      ((create_audio_buffers (List.replicate 6 0) (List.replicate 6 0)).pop_outgoing 5 true
        = ([], create_audio_buffers (List.replicate 6 0) (List.replicate 6 0))) :=
  ⟨by decide,
    pop_below_watermark_returns_zero.1
      ((create_audio_buffers (List.replicate 6 0) (List.replicate 6 0)).push_incoming
        [9] true).buffers 3 true (by decide),
    pop_below_watermark_returns_zero.2.2
      (create_audio_buffers (List.replicate 6 0) (List.replicate 6 0)) 5 true (by decide)⟩

/-! ## Service lifecycle (`src/service.rs`, `src/bus.rs`, `src/signal.rs`)

The `Service` enumeration, the shared `System` record, the started-bit
logic of `ServiceLifecycle::set_started`, and the `recv`-then-check loop
of `ServiceLifecycle::wait_enabled_disabled` over the shared-state
signal's `modify` protocol.  `EnumSet<Service>` is modelled as
`Service → Bool`; per the `enumset` crate, `set |= value` is union with
the singleton `{value}` and `set &= value` is **intersection** with the
singleton `{value}`. -/

inductive Service where
  | bt
  | audioMux
  | microphone
  | speakers
  | can
  | radioDisplay
  | cockpitDisplay
  | commands
  | wifi
deriving Repr, DecidableEq

/-- `ALWAYS_ON = Can | CockpitDisplay | RadioDisplay | Commands`. -/
def ALWAYS_ON : Service → Bool := fun s =>
  decide (s = Service.can) || decide (s = Service.cockpitDisplay) ||
    decide (s = Service.radioDisplay) || decide (s = Service.commands)

/-- The shared `System` record. -/
structure System where
  enabled : Service → Bool
  always_on : Service → Bool
  started : Service → Bool
  sys_enabled : Bool

/-- `System::new`. -/
def System.new : System := ⟨fun _ => false, ALWAYS_ON, fun _ => false, true⟩

/-- `ServiceLifecycle::set_started` — the closure passed to
`sender.modify`; returns the new record and the dirty flag.  `started()`
calls it with `true`; dropping the `Started` guard calls it with `false`.
Note the clearing branch executes `state.started &= self.service`, which
in `enumset` is intersection with the singleton `{service}`. -/
def set_started (service : Service) (started : Bool) (state : System) : System × Bool :=
  let was_started := state.started service
  if started ≠ was_started then
    if started then
      ({ state with started := fun y => state.started y || decide (y = service) }, true)
    else
      ({ state with started := fun y => state.started y && decide (y = service) }, true)
  else (state, false)

/-- `ServiceLifecycle::started()` sets this service's started bit. -/
def started_acquire (service : Service) (st : System) : System × Bool :=
  set_started service true st

/-- `Drop for Started` — dropping the guard runs `set_started(false)`. -/
def started_guard_drop (service : Service) (st : System) : System × Bool :=
  set_started service false st

/-- The enabled predicate evaluated inside
`ServiceLifecycle::wait_enabled_disabled`:
`sys_enabled ? enabled[s] || always_on[s] : always_on[s]`. -/
def enabled_pred (state : System) (service : Service) : Bool :=
  if state.sys_enabled then state.enabled service || state.always_on service
  else state.always_on service

/-- Claim C1 (code evaluated at the failing input): `started()` does set
the service's started bit, but dropping the guard does **not** clear it:
with `started = {Can, Bt}`, running the guard-drop for `Bt` leaves `Bt`'s
bit set and instead clears `Can`'s bit (because `started &= service`
intersects with the singleton `{service}` rather than removing it), while
still reporting the record as dirty. -/
theorem started_bit_drop_bug :
    ((started_acquire Service.bt
        ⟨fun _ => false, ALWAYS_ON, fun _ => false, true⟩).1.started Service.bt = true) ∧
      ((started_guard_drop Service.bt
          ⟨fun _ => false, ALWAYS_ON,
            fun y => decide (y = Service.can) || decide (y = Service.bt), true⟩).1.started
        Service.bt = true) ∧
      ((started_guard_drop Service.bt
          ⟨fun _ => false, ALWAYS_ON,
            fun y => decide (y = Service.can) || decide (y = Service.bt), true⟩).1.started
        Service.can = false) ∧
      ((started_guard_drop Service.bt
          ⟨fun _ => false, ALWAYS_ON,
            fun y => decide (y = Service.can) || decide (y = Service.bt), true⟩).2 = true) := by
  refine ⟨?_, ?_, ?_, ?_⟩ <;> rfl

/-- The caller-side view of the system stateful signal: the shared record
and whether the caller's slot holds a not-yet-consumed wake.  A
`modify(f)` runs `f` on the record and, when `f` reports dirty, fans a
unit wake into every slot (`SharedStateSender::modify` in
`src/signal.rs`). -/
structure WaitModel where
  sys : System
  pending : Bool

/-- `ServiceLifecycle::wait_enabled_disabled`, totalized by fuel: loop
`recv().await` — consume the pending wake if present, else block until a
modify reports dirty — then evaluate the enabled predicate and return
once it equals `wanted`.  The events are the modifies performed by the
rest of the system while the caller waits; `none` means the call has not
returned within the trace/fuel. -/
def waitRun : Nat → Service → Bool → WaitModel → List (System → System × Bool) →
    Option (WaitModel × List (System → System × Bool))
  | 0, _, _, _, _ => none
  | fuel + 1, s, wanted, m, evs =>
    if m.pending then
      if enabled_pred m.sys s = wanted then some (⟨m.sys, false⟩, evs)
      else waitRun fuel s wanted ⟨m.sys, false⟩ evs
    else
      match evs with
      | [] => none
      | f :: rest => waitRun fuel s wanted ⟨(f m.sys).1, (f m.sys).2⟩ rest

/-- Counterexample to claim C10 as stated: a wake already pending in the
caller's slot (from a modify that happened before the call) lets
`wait_enabled` return immediately — here with an empty trace, i.e.
without any *later* modify reporting a dirty change — even though the
predicate already held at call time. -/
theorem wait_enabled_pending_counterexample :
    enabled_pred ⟨fun _ => true, ALWAYS_ON, fun _ => false, true⟩ Service.bt = true ∧
      waitRun 1 Service.bt true
          ⟨⟨fun _ => true, ALWAYS_ON, fun _ => false, true⟩, true⟩ []
        = some (⟨⟨fun _ => true, ALWAYS_ON, fun _ => false, true⟩, false⟩, []) := by
  exact ⟨rfl, rfl⟩

/-- Claim C10 (amended): `wait_enabled` / `wait_disabled` always consume a
wake of the system stateful signal before first evaluating the enabled
predicate: a call whose slot holds no pending wake does not return — even
when the predicate already holds — until some modify of the system record
reports a dirty change; in particular, if every modify in the trace is
clean the call never returns. -/
theorem waitRun_no_dirty_none (fuel : Nat) :
    ∀ (s : Service) (wanted : Bool) (sys : System)
      (evs : List (System → System × Bool)),
      (∀ f ∈ evs, ∀ st : System, (f st).2 = false) →
      waitRun fuel s wanted ⟨sys, false⟩ evs = none := by
  induction fuel with
  | zero =>
    intro s wanted sys evs _
    rfl
  | succ fuel ih =>
    intro s wanted sys evs hclean
    cases evs with
    | nil => rfl
    | cons f rest =>
      rw [show waitRun (fuel + 1) s wanted ⟨sys, false⟩ (f :: rest)
          = waitRun fuel s wanted ⟨(f sys).1, (f sys).2⟩ rest from rfl]
      rw [hclean f (List.mem_cons_self f rest) sys]
      exact ih s wanted (f sys).1 rest fun g hg st => hclean g (List.mem_cons_of_mem f hg) st

/-- Witness for C10 (amended): a clean modify does not release the wait. -/
theorem waitRun_no_dirty_none_witness :
    (∀ f ∈ ([fun st => (st, false)] : List (System → System × Bool)),
        ∀ st : System, (f st).2 = false) ∧
      waitRun 3 Service.bt true ⟨⟨fun _ => true, ALWAYS_ON, fun _ => false, true⟩, false⟩
          [fun st => (st, false)]
        = none := by
  refine ⟨?_, ?_⟩
  · intro f hf st
    have h := List.mem_singleton.mp hf
    subst h
    rfl
  · exact waitRun_no_dirty_none 3 Service.bt true
      ⟨fun _ => true, ALWAYS_ON, fun _ => false, true⟩ [fun st => (st, false)]
      (by
        intro f hf st
        have h := List.mem_singleton.mp hf
        subst h
        rfl)

/-! ## Vehicle-bus message codec (`src/can.rs`, module `message`)

Payloads are byte lists (`FramePayload` is at most 8 bytes).  Each payload
type's `decode` models its `From<&[u8]>` impl and `encode` models its
`From<-> for FramePayload` impl. -/

/-- `BodyComputer` payloads. -/
inductive BodyComputer where
  | wakeupRequest
  | statusRequest
  | shutDownRequest
  | poweringOn
  | active
  | aboutToSleep
  | unknown (v : List Nat)
deriving Repr, DecidableEq

def BodyComputer.decode (v : List Nat) : BodyComputer :=
  if v = [0x00, 0x1c, 0x00, 0x00, 0x00, 0x01] then .wakeupRequest
  else if v = [0x00, 0x1e, 0x00, 0x00, 0x00, 0x01] then .statusRequest
  else if v = [0x00, 0x1A, 0x04, 0x00, 0x10, 0x6B] then .shutDownRequest
  else if v = [0x00, 0x1c] then .poweringOn
  else if v = [0x00, 0x1e] then .active
  else if v = [0x00, 0x1a] then .aboutToSleep
  else .unknown v

def BodyComputer.encode : BodyComputer → List Nat
  | .wakeupRequest => [0x00, 0x1c, 0x00, 0x00, 0x00, 0x01]
  | .statusRequest => [0x00, 0x1e, 0x00, 0x00, 0x00, 0x01]
  | .shutDownRequest => [0x00, 0x1A, 0x04, 0x00, 0x10, 0x6B]
  | .poweringOn => [0x00, 0x1c]
  | .active => [0x00, 0x1e]
  | .aboutToSleep => [0x00, 0x1a]
  | .unknown v => v

/-- `Proxi` payloads: empty = `Request`, 6 bytes = `Response`. -/
inductive Proxi where
  | request
  | response (v : List Nat)
  | unknown (v : List Nat)
deriving Repr, DecidableEq

def Proxi.decode (v : List Nat) : Proxi :=
  if v = [] then .request
  else if v.length = 6 then .response v
  else .unknown v

def Proxi.encode : Proxi → List Nat
  | .request => []
  | .response v => v
  | .unknown v => v

/-- `SteeringWheel` payloads: a 2-byte big-endian button bitmap.  The
button set is `EnumSet::from_repr_truncated`, i.e. the 16-bit repr masked
to the declared buttons (bits 7, 8, 10, 11, 12, 13, 14, 15 = `0xFD80`). -/
inductive SteeringWheel where
  | buttons (repr : Nat)
  | unknown (v : List Nat)
deriving Repr, DecidableEq

def STEERING_WHEEL_BUTTONS_MASK : Nat := 0xFD80

def SteeringWheel.decode (v : List Nat) : SteeringWheel :=
  if v.length = 2 then
    .buttons ((v.getD 0 0 * 256 + v.getD 1 0) &&& STEERING_WHEEL_BUTTONS_MASK)
  else .unknown v

def SteeringWheel.encode : SteeringWheel → List Nat
  | .buttons r => [r / 256, r % 256]
  | .unknown v => v

/-- `Bt` sink-switch payloads. -/
inductive Bt where
  | mute
  | phone
  | voice
  | navigation
  | media
  | unknown (v : List Nat)
deriving Repr, DecidableEq

def Bt.decode (v : List Nat) : Bt :=
  if v = [0x00, 0x00, 0x00, 0x00, 0x00, 0x00, 0x00, 0x80] then .mute
  else if v = [0x00, 0x00, 0x00, 0x00, 0x00, 0x00, 0x00, 0x81] then .phone
  else if v = [0x00, 0x00, 0x00, 0x00, 0x00, 0x00, 0x00, 0x82] then .voice
  else if v = [0x00, 0x00, 0x00, 0x00, 0x00, 0x00, 0x00, 0x83] then .navigation
  else if v = [0x00, 0x00, 0x00, 0x00, 0x00, 0x00, 0x00, 0x84] then .media
  else .unknown v

def Bt.encode : Bt → List Nat
  | .mute => [0x00, 0x00, 0x00, 0x00, 0x00, 0x00, 0x00, 0x80]
  | .phone => [0x00, 0x00, 0x00, 0x00, 0x00, 0x00, 0x00, 0x81]
  | .voice => [0x00, 0x00, 0x00, 0x00, 0x00, 0x00, 0x00, 0x82]
  | .navigation => [0x00, 0x00, 0x00, 0x00, 0x00, 0x00, 0x00, 0x83]
  | .media => [0x00, 0x00, 0x00, 0x00, 0x00, 0x00, 0x00, 0x84]
  | .unknown v => v

/-- `RadioSource` payloads.  Decoding requires six bytes with the
frequency at positions 2–3; encoding `Fm` emits only four bytes with the
frequency at positions 0–1. -/
inductive RadioSource where
  | fm (freq : Nat)
  | btPlaying
  | btMuted
  | unknown (v : List Nat)
deriving Repr, DecidableEq

def RadioSource.decode (v : List Nat) : RadioSource :=
  if v = [0xe3, 0x00, 0x00, 0x00, 0x02, 0x00] then .btPlaying
  else if v = [0xe3, 0x00, 0x00, 0x00, 0x00, 0x00] then .btMuted
  else
    match v with
    | [_, _, h, l, 0, 0] => .fm (h * 256 + l)
    | _ => .unknown v

def RadioSource.encode : RadioSource → List Nat
  | .btPlaying => [0xe3, 0x00, 0x00, 0x00, 0x02, 0x00]
  | .btMuted => [0xe3, 0x00, 0x00, 0x00, 0x00, 0x00]
  | .fm freq => [freq / 256 % 256, freq % 256, 0x00, 0x00]
  | .unknown v => v

/-! ## Proxi responder (`src/can.rs`, `process_recv_proxi`)

The handler's mutable state is the pending flag and the cached value of
type `Option<[u8; 8]>`.  `<[u8]>::copy_from_slice` panics when the source
and destination lengths differ; fallible/panicking steps are modelled
with `Option`, `none` being a panic. -/

/-- `copy_from_slice` — `dst.copy_from_slice(src)` replaces `dst`'s bytes
with `src`'s, panicking (`none`) unless the lengths match. -/
def copy_from_slice (dst src : List Nat) : Option (List Nat) :=
  if dst.length = src.length then some src else none

/-- The mutable state of `process_recv`'s proxi handling. -/
structure ProxiState where
  pending_proxi_request : Bool
  proxi_value : Option (List Nat)
deriving Repr, DecidableEq

/-- `process_recv_proxi` — returns `none` on panic, otherwise the new
state and the frame payload signalled on `proxi_out` (if any). -/
def process_recv_proxi (payload : Proxi) (st : ProxiState) :
    Option (ProxiState × Option (List Nat)) := do
  let st1 ←
    match payload with
    | Proxi.request =>
      if !st.pending_proxi_request then
        some { st with pending_proxi_request := true }
      else
        some st
    | Proxi.response pvr =>
      if st.proxi_value = none then do
        let pv ← copy_from_slice (List.replicate 8 0) pvr
        some { st with proxi_value := some pv }
      else
        some st
    | Proxi.unknown _ => some st
  if st1.pending_proxi_request then
    match st1.proxi_value with
    | some pv => some (⟨false, some pv⟩, some pv)
    | none => some (st1, none)
  else
    some (st1, none)

/-- Claim C5 (code evaluated at the failing input): handling a Proxi
frame is *not* infallible.  A 6-byte payload decodes to
`Proxi::Response`, and caching it copies the 6 bytes into the 8-byte
cache `[u8; 8]` with `copy_from_slice`, whose length check fails — the
handler panics on the very first `Proxi::Response` it ever sees, so no
value is ever cached and no echo is ever produced. -/
theorem process_recv_proxi_panics :
    Proxi.decode [0xab, 0xcd, 0xef, 0x01, 0x02, 0x03]
        = Proxi.response [0xab, 0xcd, 0xef, 0x01, 0x02, 0x03] ∧
      copy_from_slice (List.replicate 8 0) [0xab, 0xcd, 0xef, 0x01, 0x02, 0x03] = none ∧
      process_recv_proxi (Proxi.response [0xab, 0xcd, 0xef, 0x01, 0x02, 0x03])
          ⟨false, none⟩ = none ∧
      process_recv_proxi (Proxi.response [0xab, 0xcd, 0xef, 0x01, 0x02, 0x03])
          ⟨true, none⟩ = none := by
  refine ⟨by decide, by decide, by decide, by decide⟩

/-! ## Radio mux (`src/can.rs`, `process_radio_mux`) and its bus types
(`src/bus.rs`). -/

inductive AudioState where
  | uninitialized
  | initialized
  | connected
  | streaming
  | suspended
deriving Repr, DecidableEq

/-- `AudioState::is_active` — only `Streaming` is active. -/
def AudioState.is_active : AudioState → Bool
  | .streaming => true
  | _ => false

inductive RadioState where
  | unknown
  | fm
  | btActive
  | btMuted
deriving Repr, DecidableEq

/-- `RadioState::is_bt_active`. -/
def RadioState.is_bt_active : RadioState → Bool
  | .btActive => true
  | _ => false

inductive BtCommand where
  | answer
  | reject
  | hangup
  | pause
  | resume
  | nextTrack
  | previousTrack
deriving Repr, DecidableEq

/-- One observation delivered to `process_radio_mux` by `select3`. -/
inductive MuxEvent where
  | radio (r : RadioState)
  | phone (a : AudioState)
  | audio (a : AudioState)

/-- The mux's local state (`sradio`, `sphone`, `saudio`). -/
structure MuxState where
  sradio : RadioState
  sphone : AudioState
  saudio : AudioState
deriving Repr, DecidableEq

/-- The initial mux state. -/
def muxInit : MuxState := ⟨RadioState.unknown, AudioState.uninitialized,
  AudioState.uninitialized⟩

/-- One iteration of `process_radio_mux`'s loop: the new state, the
`BtCommand`s sent on `radio_commands`, and whether a `Bt::Phone` frame
was signalled on `radio_switch_out`. -/
def process_radio_mux_step (st : MuxState) : MuxEvent → MuxState × List BtCommand × Bool
  | MuxEvent.radio new =>
    ({ st with sradio := new },
      if st.saudio.is_active && !st.sphone.is_active then
        match new with
        | RadioState.btActive => [BtCommand.resume]
        | _ => [BtCommand.pause]
      else [],
      false)
  | MuxEvent.phone new =>
    ({ st with sphone := new }, [],
      new.is_active && !st.sradio.is_bt_active)
  | MuxEvent.audio new => ({ st with saudio := new }, [], false)

/-- Run the mux over a list of observations, accumulating the commands. -/
def process_radio_mux_run (st : MuxState) : List MuxEvent → MuxState × List BtCommand
  | [] => (st, [])
  | e :: rest =>
    let r := process_radio_mux_step st e
    let rr := process_radio_mux_run r.1 rest
    (rr.1, r.2.1 ++ rr.2)

/-- The number of observations in a trace where the radio state enters
`BtActive` (an upward transition), starting from radio state `r0`. -/
def radioEnterCount (r0 : RadioState) : List MuxEvent → Nat
  | [] => 0
  | MuxEvent.radio r :: rest =>
    (if r = RadioState.btActive ∧ r0 ≠ RadioState.btActive then 1 else 0)
      + radioEnterCount r rest
  | _ :: rest => radioEnterCount r0 rest

/-- Counterexample to claim C8 as stated: with audio streaming and the
phone inactive, two consecutive observations of `BtActive` — a single
transition into `BtActive` — make the mux emit `Resume` twice, because
`process_radio_mux` sends a command on every radio observation without
comparing it to the previous radio state. -/
theorem radio_mux_double_resume_counterexample :
    (process_radio_mux_run muxInit
        [MuxEvent.audio AudioState.streaming, MuxEvent.radio RadioState.btActive,
          MuxEvent.radio RadioState.btActive]).2
      = [BtCommand.resume, BtCommand.resume] ∧
      radioEnterCount muxInit.sradio
          [MuxEvent.audio AudioState.streaming, MuxEvent.radio RadioState.btActive,
            MuxEvent.radio RadioState.btActive] = 1 ∧
      muxInit.sphone.is_active = false := by
  refine ⟨by decide, by decide, by decide⟩

/-- Modelled from the amended reading of the spec: while the last
observed audio state is Streaming (`is_active`) and the last observed
phone audio state is not active, *every* radio observation emits exactly
one command — `Resume` if the observed state is `BtActive`, `Pause`
otherwise — regardless of whether the radio state changed; no other
event emits a command.  Note the emitted commands do not depend on the
previous radio state at all. -/
def muxSpecCommands (saudio sphone : AudioState) : List MuxEvent → List BtCommand
  | [] => []
  | MuxEvent.radio r :: rest =>
    (if saudio.is_active && !sphone.is_active then
        [if r = RadioState.btActive then BtCommand.resume else BtCommand.pause]
      else [])
      ++ muxSpecCommands saudio sphone rest
  | MuxEvent.phone a :: rest => muxSpecCommands saudio a rest
  | MuxEvent.audio a :: rest => muxSpecCommands a sphone rest

/-- Claim C8 (amended): the command stream of `process_radio_mux` equals
the edge-free specification `muxSpecCommands`: a command is emitted on
*every* radio observation made while audio is streaming and the phone is
inactive — `Resume` for `BtActive`, `Pause` for anything else — not once
per transition. -/
theorem radio_mux_commands_eq (evs : List MuxEvent) :
    ∀ st : MuxState,
      (process_radio_mux_run st evs).2 = muxSpecCommands st.saudio st.sphone evs := by
  induction evs with
  | nil =>
    intro st
    rfl
  | cons e rest ih =>
    intro st
    cases e with
    | radio r =>
      show (if st.saudio.is_active && !st.sphone.is_active then
          match r with
          | RadioState.btActive => [BtCommand.resume]
          | _ => [BtCommand.pause]
        else []) ++ (process_radio_mux_run { st with sradio := r } rest).2
        = _
      rw [ih { st with sradio := r }]
      show _ = (if st.saudio.is_active && !st.sphone.is_active then
          [if r = RadioState.btActive then BtCommand.resume else BtCommand.pause]
        else []) ++ muxSpecCommands st.saudio st.sphone rest
      congr 1
      by_cases hg : (st.saudio.is_active && !st.sphone.is_active) = true
      · rw [if_pos hg, if_pos hg]
        cases r <;> simp
      · rw [if_neg hg, if_neg hg]
    | phone a =>
      show (process_radio_mux_run { st with sphone := a } rest).2 = _
      rw [ih { st with sphone := a }]
      rfl
    | audio a =>
      show (process_radio_mux_run { st with saudio := a } rest).2 = _
      rw [ih { st with saudio := a }]
      rfl

/-! ## 6-bit display text codec (`src/can.rs`, `decode_text` /
`encode_text`)

Characters are 6-bit indices (1-based) into the fixed 63-glyph table,
packed MSB-first.  Index 0 terminates the string on decode.  The
`heapless::String<12>` push is modelled by dropping characters beyond 12.
`u16::from_be_bytes`, `u16::to_be_bytes` and the `as u8`/`as u16` casts
are modelled with explicit arithmetic. -/

def CHAR_MAP : String := "0123456789.ABCDEFGHIJKLMNOPQRSTUVWXYZ%% %ij%%%%%%_%%?@!+-:/#*%;"

def CHAR_MAP_LIST : List Char := CHAR_MAP.toList

/-- The 1-based glyph index used by `encode_text`: the first position of
the character in `CHAR_MAP` (falling back to the position of the space
glyph, 39) plus one. -/
def encIndex (ch : Char) : Nat :=
  ((CHAR_MAP_LIST.findIdx? (fun chm => chm == ch)).getD
      ((CHAR_MAP_LIST.findIdx? (fun chm => chm == ' ')).getD 0)) + 1

/-- The `while` loop of `decode_text`, totalized by structural fuel
(`payload.len() * 8` is always enough since `offset` grows by 6 per
iteration). -/
def decode_text_loop : Nat → List Nat → Nat → List Char → List Char
  | 0, _, _, string => string
  | fuel + 1, payload, offset, string =>
    if offset < payload.length * 8 then
      if (offset + 6) / 8 ≥ payload.length then string
      else
        let index_data :=
          if offset / 8 < (offset + 6) / 8 then
            payload.getD (offset / 8) 0 * 256 + payload.getD ((offset + 6) / 8) 0
          else payload.getD (offset / 8) 0
        let index := (index_data >>> (8 - (offset + 6) % 8)) &&& 63
        if index = 0 then string
        else
          decode_text_loop fuel payload (offset + 6)
            (if string.length < 12 then string ++ [CHAR_MAP_LIST.getD (index - 1) ' ']
             else string)
    else string

/-- `decode_text`. -/
def decode_text (payload : List Nat) : List Char :=
  decode_text_loop (payload.length * 8) payload 0 []

/-- `decode_display_text` — the text region is `payload[2..]`. -/
def decode_display_text (payload : List Nat) : List Char :=
  decode_text (payload.drop 2)

/-- The `for` loop of `encode_text` (structural on the text). -/
def encode_text_loop : List Char → List Nat → Nat → List Nat
  | [], payload, _ => payload
  | ch :: text, payload, offset =>
    let index := encIndex ch
    if (offset + 6) / 8 ≥ payload.length then payload
    else
      let index_payload := index <<< (8 - (offset + 6) % 8)
      let payload' :=
        if offset / 8 < (offset + 6) / 8 then
          let p1 := payload.set (offset / 8)
            (payload.getD (offset / 8) 0 ||| (index_payload % 65536) / 256)
          p1.set ((offset + 6) / 8) (p1.getD ((offset + 6) / 8) 0 ||| index_payload % 256)
        else
          payload.set (offset / 8) (payload.getD (offset / 8) 0 ||| index_payload % 256)
      encode_text_loop text payload' (offset + 6)

/-- `encode_text` — zeroes the payload, then packs the characters. -/
def encode_text (text : List Char) (payload : List Nat) : List Nat :=
  encode_text_loop text (payload.map fun _ => 0) 0

/-- `encode_display_text` — an 8-byte payload whose text region is
`payload[2..]` (bytes 0 and 1 are left zero for the chunk header). -/
def encode_display_text (text : List Char) : List Nat :=
  [0, 0] ++ encode_text text (List.replicate 6 0)

/-! ### Codec arithmetic helpers -/

theorem encIndex_glyph : ∀ c ∈ CHAR_MAP_LIST,
    1 ≤ encIndex c ∧ encIndex c ≤ 63 ∧ CHAR_MAP_LIST.getD (encIndex c - 1) ' ' = c := by
  decide

theorem and63_eq_mod (x : Nat) : x &&& 63 = x % 64 := by
  have h := Nat.and_pow_two_sub_one_eq_mod x 6
  norm_num at h
  exact h

theorem and15_eq_mod (x : Nat) : x &&& 15 = x % 16 := by
  have h := Nat.and_pow_two_sub_one_eq_mod x 4
  norm_num at h
  exact h

theorem lor4 (a b : Nat) (hb : b < 4) : a * 4 ||| b = a * 4 + b := by
  have h := (Nat.mul_add_lt_is_or (show b < 2 ^ 2 by norm_num; exact hb) a).symm
  norm_num at h
  rw [Nat.mul_comm 4 a] at h
  exact h

theorem lor16 (a b : Nat) (hb : b < 16) : a * 16 ||| b = a * 16 + b := by
  have h := (Nat.mul_add_lt_is_or (show b < 2 ^ 4 by norm_num; exact hb) a).symm
  norm_num at h
  rw [Nat.mul_comm 16 a] at h
  exact h

theorem lor64 (a b : Nat) (hb : b < 64) : a * 64 ||| b = a * 64 + b := by
  have h := (Nat.mul_add_lt_is_or (show b < 2 ^ 6 by norm_num; exact hb) a).symm
  norm_num at h
  rw [Nat.mul_comm 64 a] at h
  exact h

theorem enc_lo2 (k : Nat) (hk : k ≤ 63) : (k <<< 2) % 256 = k * 4 := by
  rw [Nat.shiftLeft_eq]; norm_num; omega

theorem enc_hi4 (k : Nat) (hk : k ≤ 63) : k <<< 4 % 65536 / 256 = k / 16 := by
  rw [Nat.shiftLeft_eq]; norm_num; omega

theorem enc_lo4 (k : Nat) : k <<< 4 % 256 = k % 16 * 16 := by
  rw [Nat.shiftLeft_eq]; norm_num; omega

theorem enc_hi6 (k : Nat) (hk : k ≤ 63) : k <<< 6 % 65536 / 256 = k / 4 := by
  rw [Nat.shiftLeft_eq]; norm_num; omega

theorem enc_lo6 (k : Nat) : k <<< 6 % 256 = k % 4 * 64 := by
  rw [Nat.shiftLeft_eq]; norm_num; omega

theorem enc_hi8 (k : Nat) (hk : k ≤ 63) : k <<< 8 % 65536 / 256 = k := by
  rw [Nat.shiftLeft_eq]; norm_num; omega

theorem enc_lo8 (k : Nat) : k <<< 8 % 256 = 0 := by
  rw [Nat.shiftLeft_eq]; norm_num

/-! ### Single decode-loop steps, for symbolic payload bytes -/

theorem dstep_push (fuel : Nat) (payload : List Nat) (offset : Nat) (string : List Char)
    (idx : Nat)
    (hlt : offset < payload.length * 8)
    (hend : (offset + 6) / 8 < payload.length)
    (hidx : ((if offset / 8 < (offset + 6) / 8 then
                payload.getD (offset / 8) 0 * 256 + payload.getD ((offset + 6) / 8) 0
              else payload.getD (offset / 8) 0) >>> (8 - (offset + 6) % 8)) &&& 63 = idx)
    (hne : idx ≠ 0) (hstr : string.length < 12) :
    decode_text_loop (fuel + 1) payload offset string =
      decode_text_loop fuel payload (offset + 6)
        (string ++ [CHAR_MAP_LIST.getD (idx - 1) ' ']) := by
  conv_lhs => rw [decode_text_loop]
  rw [if_pos hlt, if_neg (by omega : ¬((offset + 6) / 8 ≥ payload.length))]
  dsimp only
  rw [hidx, if_neg hne, if_pos hstr]

theorem dstep_zero (fuel : Nat) (payload : List Nat) (offset : Nat) (string : List Char)
    (hlt : offset < payload.length * 8)
    (hend : (offset + 6) / 8 < payload.length)
    (hidx : ((if offset / 8 < (offset + 6) / 8 then
                payload.getD (offset / 8) 0 * 256 + payload.getD ((offset + 6) / 8) 0
              else payload.getD (offset / 8) 0) >>> (8 - (offset + 6) % 8)) &&& 63 = 0) :
    decode_text_loop (fuel + 1) payload offset string = string := by
  conv_lhs => rw [decode_text_loop]
  rw [if_pos hlt, if_neg (by omega : ¬((offset + 6) / 8 ≥ payload.length))]
  dsimp only
  rw [hidx, if_pos rfl]

theorem dstep_end (fuel : Nat) (payload : List Nat) (offset : Nat) (string : List Char)
    (hend : payload.length ≤ (offset + 6) / 8) :
    decode_text_loop (fuel + 1) payload offset string = string := by
  conv_lhs => rw [decode_text_loop]
  by_cases hlt : offset < payload.length * 8
  · rw [if_pos hlt, if_pos hend]
  · rw [if_neg hlt]

theorem decode_encode_text6 (s : List Char) (h7 : s.length ≤ 7)
    (hg : ∀ c ∈ s, c ∈ CHAR_MAP_LIST) :
    decode_text (encode_text s (List.replicate 6 0)) = s := by
  match s, h7, hg with
  | [], _, _ => decide
  | [c0], _, hg =>
    obtain ⟨g0a, g0b, g0c⟩ := encIndex_glyph c0 (hg c0 (by simp))
    have henc : encode_text [c0] (List.replicate 6 0) =
        [encIndex c0 * 4, 0, 0, 0, 0, 0] := by
      simp [encode_text, encode_text_loop, List.getD, enc_lo2, enc_hi4, enc_lo4, enc_hi6, enc_lo6, enc_hi8, enc_lo8, lor4, lor16, lor64, g0b]
    rw [henc]
    show decode_text_loop (47 + 1) _ _ _ = _
    rw [dstep_push 47 _ _ _ (encIndex c0) (by norm_num) (by norm_num)
        (by simp [List.getD]; try (rw [and63_eq_mod, Nat.shiftRight_eq_div_pow]); try norm_num; try omega)
        (by omega) (by norm_num)]
    show decode_text_loop (46 + 1) _ _ _ = _
    rw [dstep_zero 46 _ _ _ (by norm_num) (by norm_num)
        (by simp [List.getD]; try (rw [and63_eq_mod, Nat.shiftRight_eq_div_pow]); try norm_num; try omega)]
    rw [g0c] <;> simp
  | [c0, c1], _, hg =>
    obtain ⟨g0a, g0b, g0c⟩ := encIndex_glyph c0 (hg c0 (by simp))
    obtain ⟨g1a, g1b, g1c⟩ := encIndex_glyph c1 (hg c1 (by simp))
    have q1 : encIndex c1 / 16 < 4 := by omega
    have henc : encode_text [c0, c1] (List.replicate 6 0) =
        [encIndex c0 * 4 + encIndex c1 / 16, encIndex c1 % 16 * 16, 0, 0, 0, 0] := by
      simp [encode_text, encode_text_loop, List.getD, enc_lo2, enc_hi4, enc_lo4, enc_hi6, enc_lo6, enc_hi8, enc_lo8, lor4, lor16, lor64, g0b, g1b, q1]
    rw [henc]
    show decode_text_loop (47 + 1) _ _ _ = _
    rw [dstep_push 47 _ _ _ (encIndex c0) (by norm_num) (by norm_num)
        (by simp [List.getD]; try (rw [and63_eq_mod, Nat.shiftRight_eq_div_pow]); try norm_num; try omega)
        (by omega) (by norm_num)]
    show decode_text_loop (46 + 1) _ _ _ = _
    rw [dstep_push 46 _ _ _ (encIndex c1) (by norm_num) (by norm_num)
        (by simp [List.getD]; try (rw [and63_eq_mod, Nat.shiftRight_eq_div_pow]); try norm_num; try omega)
        (by omega) (by norm_num)]
    show decode_text_loop (45 + 1) _ _ _ = _
    rw [dstep_zero 45 _ _ _ (by norm_num) (by norm_num)
        (by simp [List.getD]; try (rw [and63_eq_mod, Nat.shiftRight_eq_div_pow]); try norm_num; try omega)]
    rw [g0c, g1c] <;> simp
  | [c0, c1, c2], _, hg =>
    obtain ⟨g0a, g0b, g0c⟩ := encIndex_glyph c0 (hg c0 (by simp))
    obtain ⟨g1a, g1b, g1c⟩ := encIndex_glyph c1 (hg c1 (by simp))
    obtain ⟨g2a, g2b, g2c⟩ := encIndex_glyph c2 (hg c2 (by simp))
    have q1 : encIndex c1 / 16 < 4 := by omega
    have q2 : encIndex c2 / 4 < 16 := by omega
    have henc : encode_text [c0, c1, c2] (List.replicate 6 0) =
        [encIndex c0 * 4 + encIndex c1 / 16, encIndex c1 % 16 * 16 + encIndex c2 / 4, encIndex c2 % 4 * 64, 0, 0, 0] := by
      simp [encode_text, encode_text_loop, List.getD, enc_lo2, enc_hi4, enc_lo4, enc_hi6, enc_lo6, enc_hi8, enc_lo8, lor4, lor16, lor64, g0b, g1b, g2b, q1, q2]
    rw [henc]
    show decode_text_loop (47 + 1) _ _ _ = _
    rw [dstep_push 47 _ _ _ (encIndex c0) (by norm_num) (by norm_num)
        (by simp [List.getD]; try (rw [and63_eq_mod, Nat.shiftRight_eq_div_pow]); try norm_num; try omega)
        (by omega) (by norm_num)]
    show decode_text_loop (46 + 1) _ _ _ = _
    rw [dstep_push 46 _ _ _ (encIndex c1) (by norm_num) (by norm_num)
        (by simp [List.getD]; try (rw [and63_eq_mod, Nat.shiftRight_eq_div_pow]); try norm_num; try omega)
        (by omega) (by norm_num)]
    show decode_text_loop (45 + 1) _ _ _ = _
    rw [dstep_push 45 _ _ _ (encIndex c2) (by norm_num) (by norm_num)
        (by simp [List.getD]; try (rw [and63_eq_mod, Nat.shiftRight_eq_div_pow]); try norm_num; try omega)
        (by omega) (by norm_num)]
    show decode_text_loop (44 + 1) _ _ _ = _
    rw [dstep_zero 44 _ _ _ (by norm_num) (by norm_num)
        (by simp [List.getD]; try (rw [and63_eq_mod, Nat.shiftRight_eq_div_pow]); try norm_num; try omega)]
    rw [g0c, g1c, g2c] <;> simp
  | [c0, c1, c2, c3], _, hg =>
    obtain ⟨g0a, g0b, g0c⟩ := encIndex_glyph c0 (hg c0 (by simp))
    obtain ⟨g1a, g1b, g1c⟩ := encIndex_glyph c1 (hg c1 (by simp))
    obtain ⟨g2a, g2b, g2c⟩ := encIndex_glyph c2 (hg c2 (by simp))
    obtain ⟨g3a, g3b, g3c⟩ := encIndex_glyph c3 (hg c3 (by simp))
    have q1 : encIndex c1 / 16 < 4 := by omega
    have q2 : encIndex c2 / 4 < 16 := by omega
    have q3 : encIndex c3 < 64 := by omega
    have henc : encode_text [c0, c1, c2, c3] (List.replicate 6 0) =
        [encIndex c0 * 4 + encIndex c1 / 16, encIndex c1 % 16 * 16 + encIndex c2 / 4, encIndex c2 % 4 * 64 + encIndex c3, 0, 0, 0] := by
      simp [encode_text, encode_text_loop, List.getD, enc_lo2, enc_hi4, enc_lo4, enc_hi6, enc_lo6, enc_hi8, enc_lo8, lor4, lor16, lor64, g0b, g1b, g2b, g3b, q1, q2, q3]
    rw [henc]
    show decode_text_loop (47 + 1) _ _ _ = _
    rw [dstep_push 47 _ _ _ (encIndex c0) (by norm_num) (by norm_num)
        (by simp [List.getD]; try (rw [and63_eq_mod, Nat.shiftRight_eq_div_pow]); try norm_num; try omega)
        (by omega) (by norm_num)]
    show decode_text_loop (46 + 1) _ _ _ = _
    rw [dstep_push 46 _ _ _ (encIndex c1) (by norm_num) (by norm_num)
        (by simp [List.getD]; try (rw [and63_eq_mod, Nat.shiftRight_eq_div_pow]); try norm_num; try omega)
        (by omega) (by norm_num)]
    show decode_text_loop (45 + 1) _ _ _ = _
    rw [dstep_push 45 _ _ _ (encIndex c2) (by norm_num) (by norm_num)
        (by simp [List.getD]; try (rw [and63_eq_mod, Nat.shiftRight_eq_div_pow]); try norm_num; try omega)
        (by omega) (by norm_num)]
    show decode_text_loop (44 + 1) _ _ _ = _
    rw [dstep_push 44 _ _ _ (encIndex c3) (by norm_num) (by norm_num)
        (by simp [List.getD]; try (rw [and63_eq_mod, Nat.shiftRight_eq_div_pow]); try norm_num; try omega)
        (by omega) (by norm_num)]
    show decode_text_loop (43 + 1) _ _ _ = _
    rw [dstep_zero 43 _ _ _ (by norm_num) (by norm_num)
        (by simp [List.getD]; try (rw [and63_eq_mod, Nat.shiftRight_eq_div_pow]); try norm_num; try omega)]
    rw [g0c, g1c, g2c, g3c] <;> simp
  | [c0, c1, c2, c3, c4], _, hg =>
    obtain ⟨g0a, g0b, g0c⟩ := encIndex_glyph c0 (hg c0 (by simp))
    obtain ⟨g1a, g1b, g1c⟩ := encIndex_glyph c1 (hg c1 (by simp))
    obtain ⟨g2a, g2b, g2c⟩ := encIndex_glyph c2 (hg c2 (by simp))
    obtain ⟨g3a, g3b, g3c⟩ := encIndex_glyph c3 (hg c3 (by simp))
    obtain ⟨g4a, g4b, g4c⟩ := encIndex_glyph c4 (hg c4 (by simp))
    have q1 : encIndex c1 / 16 < 4 := by omega
    have q2 : encIndex c2 / 4 < 16 := by omega
    have q3 : encIndex c3 < 64 := by omega
    have henc : encode_text [c0, c1, c2, c3, c4] (List.replicate 6 0) =
        [encIndex c0 * 4 + encIndex c1 / 16, encIndex c1 % 16 * 16 + encIndex c2 / 4, encIndex c2 % 4 * 64 + encIndex c3, encIndex c4 * 4, 0, 0] := by
      simp [encode_text, encode_text_loop, List.getD, enc_lo2, enc_hi4, enc_lo4, enc_hi6, enc_lo6, enc_hi8, enc_lo8, lor4, lor16, lor64, g0b, g1b, g2b, g3b, g4b, q1, q2, q3]
    rw [henc]
    show decode_text_loop (47 + 1) _ _ _ = _
    rw [dstep_push 47 _ _ _ (encIndex c0) (by norm_num) (by norm_num)
        (by simp [List.getD]; try (rw [and63_eq_mod, Nat.shiftRight_eq_div_pow]); try norm_num; try omega)
        (by omega) (by norm_num)]
    show decode_text_loop (46 + 1) _ _ _ = _
    rw [dstep_push 46 _ _ _ (encIndex c1) (by norm_num) (by norm_num)
        (by simp [List.getD]; try (rw [and63_eq_mod, Nat.shiftRight_eq_div_pow]); try norm_num; try omega)
        (by omega) (by norm_num)]
    show decode_text_loop (45 + 1) _ _ _ = _
    rw [dstep_push 45 _ _ _ (encIndex c2) (by norm_num) (by norm_num)
        (by simp [List.getD]; try (rw [and63_eq_mod, Nat.shiftRight_eq_div_pow]); try norm_num; try omega)
        (by omega) (by norm_num)]
    show decode_text_loop (44 + 1) _ _ _ = _
    rw [dstep_push 44 _ _ _ (encIndex c3) (by norm_num) (by norm_num)
        (by simp [List.getD]; try (rw [and63_eq_mod, Nat.shiftRight_eq_div_pow]); try norm_num; try omega)
        (by omega) (by norm_num)]
    show decode_text_loop (43 + 1) _ _ _ = _
    rw [dstep_push 43 _ _ _ (encIndex c4) (by norm_num) (by norm_num)
        (by simp [List.getD]; try (rw [and63_eq_mod, Nat.shiftRight_eq_div_pow]); try norm_num; try omega)
        (by omega) (by norm_num)]
    show decode_text_loop (42 + 1) _ _ _ = _
    rw [dstep_zero 42 _ _ _ (by norm_num) (by norm_num)
        (by simp [List.getD]; try (rw [and63_eq_mod, Nat.shiftRight_eq_div_pow]); try norm_num; try omega)]
    rw [g0c, g1c, g2c, g3c, g4c] <;> simp
  | [c0, c1, c2, c3, c4, c5], _, hg =>
    obtain ⟨g0a, g0b, g0c⟩ := encIndex_glyph c0 (hg c0 (by simp))
    obtain ⟨g1a, g1b, g1c⟩ := encIndex_glyph c1 (hg c1 (by simp))
    obtain ⟨g2a, g2b, g2c⟩ := encIndex_glyph c2 (hg c2 (by simp))
    obtain ⟨g3a, g3b, g3c⟩ := encIndex_glyph c3 (hg c3 (by simp))
    obtain ⟨g4a, g4b, g4c⟩ := encIndex_glyph c4 (hg c4 (by simp))
    obtain ⟨g5a, g5b, g5c⟩ := encIndex_glyph c5 (hg c5 (by simp))
    have q1 : encIndex c1 / 16 < 4 := by omega
    have q2 : encIndex c2 / 4 < 16 := by omega
    have q3 : encIndex c3 < 64 := by omega
    have q5 : encIndex c5 / 16 < 4 := by omega
    have henc : encode_text [c0, c1, c2, c3, c4, c5] (List.replicate 6 0) =
        [encIndex c0 * 4 + encIndex c1 / 16, encIndex c1 % 16 * 16 + encIndex c2 / 4, encIndex c2 % 4 * 64 + encIndex c3, encIndex c4 * 4 + encIndex c5 / 16, encIndex c5 % 16 * 16, 0] := by
      simp [encode_text, encode_text_loop, List.getD, enc_lo2, enc_hi4, enc_lo4, enc_hi6, enc_lo6, enc_hi8, enc_lo8, lor4, lor16, lor64, g0b, g1b, g2b, g3b, g4b, g5b, q1, q2, q3, q5]
    rw [henc]
    show decode_text_loop (47 + 1) _ _ _ = _
    rw [dstep_push 47 _ _ _ (encIndex c0) (by norm_num) (by norm_num)
        (by simp [List.getD]; try (rw [and63_eq_mod, Nat.shiftRight_eq_div_pow]); try norm_num; try omega)
        (by omega) (by norm_num)]
    show decode_text_loop (46 + 1) _ _ _ = _
    rw [dstep_push 46 _ _ _ (encIndex c1) (by norm_num) (by norm_num)
        (by simp [List.getD]; try (rw [and63_eq_mod, Nat.shiftRight_eq_div_pow]); try norm_num; try omega)
        (by omega) (by norm_num)]
    show decode_text_loop (45 + 1) _ _ _ = _
    rw [dstep_push 45 _ _ _ (encIndex c2) (by norm_num) (by norm_num)
        (by simp [List.getD]; try (rw [and63_eq_mod, Nat.shiftRight_eq_div_pow]); try norm_num; try omega)
        (by omega) (by norm_num)]
    show decode_text_loop (44 + 1) _ _ _ = _
    rw [dstep_push 44 _ _ _ (encIndex c3) (by norm_num) (by norm_num)
        (by simp [List.getD]; try (rw [and63_eq_mod, Nat.shiftRight_eq_div_pow]); try norm_num; try omega)
        (by omega) (by norm_num)]
    show decode_text_loop (43 + 1) _ _ _ = _
    rw [dstep_push 43 _ _ _ (encIndex c4) (by norm_num) (by norm_num)
        (by simp [List.getD]; try (rw [and63_eq_mod, Nat.shiftRight_eq_div_pow]); try norm_num; try omega)
        (by omega) (by norm_num)]
    show decode_text_loop (42 + 1) _ _ _ = _
    rw [dstep_push 42 _ _ _ (encIndex c5) (by norm_num) (by norm_num)
        (by simp [List.getD]; try (rw [and63_eq_mod, Nat.shiftRight_eq_div_pow]); try norm_num; try omega)
        (by omega) (by norm_num)]
    show decode_text_loop (41 + 1) _ _ _ = _
    rw [dstep_zero 41 _ _ _ (by norm_num) (by norm_num)
        (by simp [List.getD]; try (rw [and63_eq_mod, Nat.shiftRight_eq_div_pow]); try norm_num; try omega)]
    rw [g0c, g1c, g2c, g3c, g4c, g5c] <;> simp
  | [c0, c1, c2, c3, c4, c5, c6], _, hg =>
    obtain ⟨g0a, g0b, g0c⟩ := encIndex_glyph c0 (hg c0 (by simp))
    obtain ⟨g1a, g1b, g1c⟩ := encIndex_glyph c1 (hg c1 (by simp))
    obtain ⟨g2a, g2b, g2c⟩ := encIndex_glyph c2 (hg c2 (by simp))
    obtain ⟨g3a, g3b, g3c⟩ := encIndex_glyph c3 (hg c3 (by simp))
    obtain ⟨g4a, g4b, g4c⟩ := encIndex_glyph c4 (hg c4 (by simp))
    obtain ⟨g5a, g5b, g5c⟩ := encIndex_glyph c5 (hg c5 (by simp))
    obtain ⟨g6a, g6b, g6c⟩ := encIndex_glyph c6 (hg c6 (by simp))
    have q1 : encIndex c1 / 16 < 4 := by omega
    have q2 : encIndex c2 / 4 < 16 := by omega
    have q3 : encIndex c3 < 64 := by omega
    have q5 : encIndex c5 / 16 < 4 := by omega
    have q6 : encIndex c6 / 4 < 16 := by omega
    have henc : encode_text [c0, c1, c2, c3, c4, c5, c6] (List.replicate 6 0) =
        [encIndex c0 * 4 + encIndex c1 / 16, encIndex c1 % 16 * 16 + encIndex c2 / 4, encIndex c2 % 4 * 64 + encIndex c3, encIndex c4 * 4 + encIndex c5 / 16, encIndex c5 % 16 * 16 + encIndex c6 / 4, encIndex c6 % 4 * 64] := by
      simp [encode_text, encode_text_loop, List.getD, enc_lo2, enc_hi4, enc_lo4, enc_hi6, enc_lo6, enc_hi8, enc_lo8, lor4, lor16, lor64, g0b, g1b, g2b, g3b, g4b, g5b, g6b, q1, q2, q3, q5, q6]
    rw [henc]
    show decode_text_loop (47 + 1) _ _ _ = _
    rw [dstep_push 47 _ _ _ (encIndex c0) (by norm_num) (by norm_num)
        (by simp [List.getD]; try (rw [and63_eq_mod, Nat.shiftRight_eq_div_pow]); try norm_num; try omega)
        (by omega) (by norm_num)]
    show decode_text_loop (46 + 1) _ _ _ = _
    rw [dstep_push 46 _ _ _ (encIndex c1) (by norm_num) (by norm_num)
        (by simp [List.getD]; try (rw [and63_eq_mod, Nat.shiftRight_eq_div_pow]); try norm_num; try omega)
        (by omega) (by norm_num)]
    show decode_text_loop (45 + 1) _ _ _ = _
    rw [dstep_push 45 _ _ _ (encIndex c2) (by norm_num) (by norm_num)
        (by simp [List.getD]; try (rw [and63_eq_mod, Nat.shiftRight_eq_div_pow]); try norm_num; try omega)
        (by omega) (by norm_num)]
    show decode_text_loop (44 + 1) _ _ _ = _
    rw [dstep_push 44 _ _ _ (encIndex c3) (by norm_num) (by norm_num)
        (by simp [List.getD]; try (rw [and63_eq_mod, Nat.shiftRight_eq_div_pow]); try norm_num; try omega)
        (by omega) (by norm_num)]
    show decode_text_loop (43 + 1) _ _ _ = _
    rw [dstep_push 43 _ _ _ (encIndex c4) (by norm_num) (by norm_num)
        (by simp [List.getD]; try (rw [and63_eq_mod, Nat.shiftRight_eq_div_pow]); try norm_num; try omega)
        (by omega) (by norm_num)]
    show decode_text_loop (42 + 1) _ _ _ = _
    rw [dstep_push 42 _ _ _ (encIndex c5) (by norm_num) (by norm_num)
        (by simp [List.getD]; try (rw [and63_eq_mod, Nat.shiftRight_eq_div_pow]); try norm_num; try omega)
        (by omega) (by norm_num)]
    show decode_text_loop (41 + 1) _ _ _ = _
    rw [dstep_push 41 _ _ _ (encIndex c6) (by norm_num) (by norm_num)
        (by simp [List.getD]; try (rw [and63_eq_mod, Nat.shiftRight_eq_div_pow]); try norm_num; try omega)
        (by omega) (by norm_num)]
    show decode_text_loop (40 + 1) _ _ _ = _
    rw [dstep_end 40 _ _ _ (by norm_num)]
    rw [g0c, g1c, g2c, g3c, g4c, g5c, g6c] <;> simp
  | c0 :: c1 :: c2 :: c3 :: c4 :: c5 :: c6 :: c7 :: rest, h7, _ => (simp at h7 <;> omega)

theorem decode_encode_text8 (s : List Char) (h7 : s.length ≤ 7)
    (hg : ∀ c ∈ s, c ∈ CHAR_MAP_LIST) :
    decode_text (encode_text s (List.replicate 8 0)) = s := by
  match s, h7, hg with
  | [], _, _ => decide
  | [c0], _, hg =>
    obtain ⟨g0a, g0b, g0c⟩ := encIndex_glyph c0 (hg c0 (by simp))
    have henc : encode_text [c0] (List.replicate 8 0) =
        [encIndex c0 * 4, 0, 0, 0, 0, 0, 0, 0] := by
      simp [encode_text, encode_text_loop, List.getD, enc_lo2, enc_hi4, enc_lo4, enc_hi6, enc_lo6, enc_hi8, enc_lo8, lor4, lor16, lor64, g0b]
    rw [henc]
    show decode_text_loop (63 + 1) _ _ _ = _
    rw [dstep_push 63 _ _ _ (encIndex c0) (by norm_num) (by norm_num)
        (by simp [List.getD]; try (rw [and63_eq_mod, Nat.shiftRight_eq_div_pow]); try norm_num; try omega)
        (by omega) (by norm_num)]
    show decode_text_loop (62 + 1) _ _ _ = _
    rw [dstep_zero 62 _ _ _ (by norm_num) (by norm_num)
        (by simp [List.getD]; try (rw [and63_eq_mod, Nat.shiftRight_eq_div_pow]); try norm_num; try omega)]
    rw [g0c] <;> simp
  | [c0, c1], _, hg =>
    obtain ⟨g0a, g0b, g0c⟩ := encIndex_glyph c0 (hg c0 (by simp))
    obtain ⟨g1a, g1b, g1c⟩ := encIndex_glyph c1 (hg c1 (by simp))
    have q1 : encIndex c1 / 16 < 4 := by omega
    have henc : encode_text [c0, c1] (List.replicate 8 0) =
        [encIndex c0 * 4 + encIndex c1 / 16, encIndex c1 % 16 * 16, 0, 0, 0, 0, 0, 0] := by
      simp [encode_text, encode_text_loop, List.getD, enc_lo2, enc_hi4, enc_lo4, enc_hi6, enc_lo6, enc_hi8, enc_lo8, lor4, lor16, lor64, g0b, g1b, q1]
    rw [henc]
    show decode_text_loop (63 + 1) _ _ _ = _
    rw [dstep_push 63 _ _ _ (encIndex c0) (by norm_num) (by norm_num)
        (by simp [List.getD]; try (rw [and63_eq_mod, Nat.shiftRight_eq_div_pow]); try norm_num; try omega)
        (by omega) (by norm_num)]
    show decode_text_loop (62 + 1) _ _ _ = _
    rw [dstep_push 62 _ _ _ (encIndex c1) (by norm_num) (by norm_num)
        (by simp [List.getD]; try (rw [and63_eq_mod, Nat.shiftRight_eq_div_pow]); try norm_num; try omega)
        (by omega) (by norm_num)]
    show decode_text_loop (61 + 1) _ _ _ = _
    rw [dstep_zero 61 _ _ _ (by norm_num) (by norm_num)
        (by simp [List.getD]; try (rw [and63_eq_mod, Nat.shiftRight_eq_div_pow]); try norm_num; try omega)]
    rw [g0c, g1c] <;> simp
  | [c0, c1, c2], _, hg =>
    obtain ⟨g0a, g0b, g0c⟩ := encIndex_glyph c0 (hg c0 (by simp))
    obtain ⟨g1a, g1b, g1c⟩ := encIndex_glyph c1 (hg c1 (by simp))
    obtain ⟨g2a, g2b, g2c⟩ := encIndex_glyph c2 (hg c2 (by simp))
    have q1 : encIndex c1 / 16 < 4 := by omega
    have q2 : encIndex c2 / 4 < 16 := by omega
    have henc : encode_text [c0, c1, c2] (List.replicate 8 0) =
        [encIndex c0 * 4 + encIndex c1 / 16, encIndex c1 % 16 * 16 + encIndex c2 / 4, encIndex c2 % 4 * 64, 0, 0, 0, 0, 0] := by
      simp [encode_text, encode_text_loop, List.getD, enc_lo2, enc_hi4, enc_lo4, enc_hi6, enc_lo6, enc_hi8, enc_lo8, lor4, lor16, lor64, g0b, g1b, g2b, q1, q2]
    rw [henc]
    show decode_text_loop (63 + 1) _ _ _ = _
    rw [dstep_push 63 _ _ _ (encIndex c0) (by norm_num) (by norm_num)
        (by simp [List.getD]; try (rw [and63_eq_mod, Nat.shiftRight_eq_div_pow]); try norm_num; try omega)
        (by omega) (by norm_num)]
    show decode_text_loop (62 + 1) _ _ _ = _
    rw [dstep_push 62 _ _ _ (encIndex c1) (by norm_num) (by norm_num)
        (by simp [List.getD]; try (rw [and63_eq_mod, Nat.shiftRight_eq_div_pow]); try norm_num; try omega)
        (by omega) (by norm_num)]
    show decode_text_loop (61 + 1) _ _ _ = _
    rw [dstep_push 61 _ _ _ (encIndex c2) (by norm_num) (by norm_num)
        (by simp [List.getD]; try (rw [and63_eq_mod, Nat.shiftRight_eq_div_pow]); try norm_num; try omega)
        (by omega) (by norm_num)]
    show decode_text_loop (60 + 1) _ _ _ = _
    rw [dstep_zero 60 _ _ _ (by norm_num) (by norm_num)
        (by simp [List.getD]; try (rw [and63_eq_mod, Nat.shiftRight_eq_div_pow]); try norm_num; try omega)]
    rw [g0c, g1c, g2c] <;> simp
  | [c0, c1, c2, c3], _, hg =>
    obtain ⟨g0a, g0b, g0c⟩ := encIndex_glyph c0 (hg c0 (by simp))
    obtain ⟨g1a, g1b, g1c⟩ := encIndex_glyph c1 (hg c1 (by simp))
    obtain ⟨g2a, g2b, g2c⟩ := encIndex_glyph c2 (hg c2 (by simp))
    obtain ⟨g3a, g3b, g3c⟩ := encIndex_glyph c3 (hg c3 (by simp))
    have q1 : encIndex c1 / 16 < 4 := by omega
    have q2 : encIndex c2 / 4 < 16 := by omega
    have q3 : encIndex c3 < 64 := by omega
    have henc : encode_text [c0, c1, c2, c3] (List.replicate 8 0) =
        [encIndex c0 * 4 + encIndex c1 / 16, encIndex c1 % 16 * 16 + encIndex c2 / 4, encIndex c2 % 4 * 64 + encIndex c3, 0, 0, 0, 0, 0] := by
      simp [encode_text, encode_text_loop, List.getD, enc_lo2, enc_hi4, enc_lo4, enc_hi6, enc_lo6, enc_hi8, enc_lo8, lor4, lor16, lor64, g0b, g1b, g2b, g3b, q1, q2, q3]
    rw [henc]
    show decode_text_loop (63 + 1) _ _ _ = _
    rw [dstep_push 63 _ _ _ (encIndex c0) (by norm_num) (by norm_num)
        (by simp [List.getD]; try (rw [and63_eq_mod, Nat.shiftRight_eq_div_pow]); try norm_num; try omega)
        (by omega) (by norm_num)]
    show decode_text_loop (62 + 1) _ _ _ = _
    rw [dstep_push 62 _ _ _ (encIndex c1) (by norm_num) (by norm_num)
        (by simp [List.getD]; try (rw [and63_eq_mod, Nat.shiftRight_eq_div_pow]); try norm_num; try omega)
        (by omega) (by norm_num)]
    show decode_text_loop (61 + 1) _ _ _ = _
    rw [dstep_push 61 _ _ _ (encIndex c2) (by norm_num) (by norm_num)
        (by simp [List.getD]; try (rw [and63_eq_mod, Nat.shiftRight_eq_div_pow]); try norm_num; try omega)
        (by omega) (by norm_num)]
    show decode_text_loop (60 + 1) _ _ _ = _
    rw [dstep_push 60 _ _ _ (encIndex c3) (by norm_num) (by norm_num)
        (by simp [List.getD]; try (rw [and63_eq_mod, Nat.shiftRight_eq_div_pow]); try norm_num; try omega)
        (by omega) (by norm_num)]
    show decode_text_loop (59 + 1) _ _ _ = _
    rw [dstep_zero 59 _ _ _ (by norm_num) (by norm_num)
        (by simp [List.getD]; try (rw [and63_eq_mod, Nat.shiftRight_eq_div_pow]); try norm_num; try omega)]
    rw [g0c, g1c, g2c, g3c] <;> simp
  | [c0, c1, c2, c3, c4], _, hg =>
    obtain ⟨g0a, g0b, g0c⟩ := encIndex_glyph c0 (hg c0 (by simp))
    obtain ⟨g1a, g1b, g1c⟩ := encIndex_glyph c1 (hg c1 (by simp))
    obtain ⟨g2a, g2b, g2c⟩ := encIndex_glyph c2 (hg c2 (by simp))
    obtain ⟨g3a, g3b, g3c⟩ := encIndex_glyph c3 (hg c3 (by simp))
    obtain ⟨g4a, g4b, g4c⟩ := encIndex_glyph c4 (hg c4 (by simp))
    have q1 : encIndex c1 / 16 < 4 := by omega
    have q2 : encIndex c2 / 4 < 16 := by omega
    have q3 : encIndex c3 < 64 := by omega
    have henc : encode_text [c0, c1, c2, c3, c4] (List.replicate 8 0) =
        [encIndex c0 * 4 + encIndex c1 / 16, encIndex c1 % 16 * 16 + encIndex c2 / 4, encIndex c2 % 4 * 64 + encIndex c3, encIndex c4 * 4, 0, 0, 0, 0] := by
      simp [encode_text, encode_text_loop, List.getD, enc_lo2, enc_hi4, enc_lo4, enc_hi6, enc_lo6, enc_hi8, enc_lo8, lor4, lor16, lor64, g0b, g1b, g2b, g3b, g4b, q1, q2, q3]
    rw [henc]
    show decode_text_loop (63 + 1) _ _ _ = _
    rw [dstep_push 63 _ _ _ (encIndex c0) (by norm_num) (by norm_num)
        (by simp [List.getD]; try (rw [and63_eq_mod, Nat.shiftRight_eq_div_pow]); try norm_num; try omega)
        (by omega) (by norm_num)]
    show decode_text_loop (62 + 1) _ _ _ = _
    rw [dstep_push 62 _ _ _ (encIndex c1) (by norm_num) (by norm_num)
        (by simp [List.getD]; try (rw [and63_eq_mod, Nat.shiftRight_eq_div_pow]); try norm_num; try omega)
        (by omega) (by norm_num)]
    show decode_text_loop (61 + 1) _ _ _ = _
    rw [dstep_push 61 _ _ _ (encIndex c2) (by norm_num) (by norm_num)
        (by simp [List.getD]; try (rw [and63_eq_mod, Nat.shiftRight_eq_div_pow]); try norm_num; try omega)
        (by omega) (by norm_num)]
    show decode_text_loop (60 + 1) _ _ _ = _
    rw [dstep_push 60 _ _ _ (encIndex c3) (by norm_num) (by norm_num)
        (by simp [List.getD]; try (rw [and63_eq_mod, Nat.shiftRight_eq_div_pow]); try norm_num; try omega)
        (by omega) (by norm_num)]
    show decode_text_loop (59 + 1) _ _ _ = _
    rw [dstep_push 59 _ _ _ (encIndex c4) (by norm_num) (by norm_num)
        (by simp [List.getD]; try (rw [and63_eq_mod, Nat.shiftRight_eq_div_pow]); try norm_num; try omega)
        (by omega) (by norm_num)]
    show decode_text_loop (58 + 1) _ _ _ = _
    rw [dstep_zero 58 _ _ _ (by norm_num) (by norm_num)
        (by simp [List.getD]; try (rw [and63_eq_mod, Nat.shiftRight_eq_div_pow]); try norm_num; try omega)]
    rw [g0c, g1c, g2c, g3c, g4c] <;> simp
  | [c0, c1, c2, c3, c4, c5], _, hg =>
    obtain ⟨g0a, g0b, g0c⟩ := encIndex_glyph c0 (hg c0 (by simp))
    obtain ⟨g1a, g1b, g1c⟩ := encIndex_glyph c1 (hg c1 (by simp))
    obtain ⟨g2a, g2b, g2c⟩ := encIndex_glyph c2 (hg c2 (by simp))
    obtain ⟨g3a, g3b, g3c⟩ := encIndex_glyph c3 (hg c3 (by simp))
    obtain ⟨g4a, g4b, g4c⟩ := encIndex_glyph c4 (hg c4 (by simp))
    obtain ⟨g5a, g5b, g5c⟩ := encIndex_glyph c5 (hg c5 (by simp))
    have q1 : encIndex c1 / 16 < 4 := by omega
    have q2 : encIndex c2 / 4 < 16 := by omega
    have q3 : encIndex c3 < 64 := by omega
    have q5 : encIndex c5 / 16 < 4 := by omega
    have henc : encode_text [c0, c1, c2, c3, c4, c5] (List.replicate 8 0) =
        [encIndex c0 * 4 + encIndex c1 / 16, encIndex c1 % 16 * 16 + encIndex c2 / 4, encIndex c2 % 4 * 64 + encIndex c3, encIndex c4 * 4 + encIndex c5 / 16, encIndex c5 % 16 * 16, 0, 0, 0] := by
      simp [encode_text, encode_text_loop, List.getD, enc_lo2, enc_hi4, enc_lo4, enc_hi6, enc_lo6, enc_hi8, enc_lo8, lor4, lor16, lor64, g0b, g1b, g2b, g3b, g4b, g5b, q1, q2, q3, q5]
    rw [henc]
    show decode_text_loop (63 + 1) _ _ _ = _
    rw [dstep_push 63 _ _ _ (encIndex c0) (by norm_num) (by norm_num)
        (by simp [List.getD]; try (rw [and63_eq_mod, Nat.shiftRight_eq_div_pow]); try norm_num; try omega)
        (by omega) (by norm_num)]
    show decode_text_loop (62 + 1) _ _ _ = _
    rw [dstep_push 62 _ _ _ (encIndex c1) (by norm_num) (by norm_num)
        (by simp [List.getD]; try (rw [and63_eq_mod, Nat.shiftRight_eq_div_pow]); try norm_num; try omega)
        (by omega) (by norm_num)]
    show decode_text_loop (61 + 1) _ _ _ = _
    rw [dstep_push 61 _ _ _ (encIndex c2) (by norm_num) (by norm_num)
        (by simp [List.getD]; try (rw [and63_eq_mod, Nat.shiftRight_eq_div_pow]); try norm_num; try omega)
        (by omega) (by norm_num)]
    show decode_text_loop (60 + 1) _ _ _ = _
    rw [dstep_push 60 _ _ _ (encIndex c3) (by norm_num) (by norm_num)
        (by simp [List.getD]; try (rw [and63_eq_mod, Nat.shiftRight_eq_div_pow]); try norm_num; try omega)
        (by omega) (by norm_num)]
    show decode_text_loop (59 + 1) _ _ _ = _
    rw [dstep_push 59 _ _ _ (encIndex c4) (by norm_num) (by norm_num)
        (by simp [List.getD]; try (rw [and63_eq_mod, Nat.shiftRight_eq_div_pow]); try norm_num; try omega)
        (by omega) (by norm_num)]
    show decode_text_loop (58 + 1) _ _ _ = _
    rw [dstep_push 58 _ _ _ (encIndex c5) (by norm_num) (by norm_num)
        (by simp [List.getD]; try (rw [and63_eq_mod, Nat.shiftRight_eq_div_pow]); try norm_num; try omega)
        (by omega) (by norm_num)]
    show decode_text_loop (57 + 1) _ _ _ = _
    rw [dstep_zero 57 _ _ _ (by norm_num) (by norm_num)
        (by simp [List.getD]; try (rw [and63_eq_mod, Nat.shiftRight_eq_div_pow]); try norm_num; try omega)]
    rw [g0c, g1c, g2c, g3c, g4c, g5c] <;> simp
  | [c0, c1, c2, c3, c4, c5, c6], _, hg =>
    obtain ⟨g0a, g0b, g0c⟩ := encIndex_glyph c0 (hg c0 (by simp))
    obtain ⟨g1a, g1b, g1c⟩ := encIndex_glyph c1 (hg c1 (by simp))
    obtain ⟨g2a, g2b, g2c⟩ := encIndex_glyph c2 (hg c2 (by simp))
    obtain ⟨g3a, g3b, g3c⟩ := encIndex_glyph c3 (hg c3 (by simp))
    obtain ⟨g4a, g4b, g4c⟩ := encIndex_glyph c4 (hg c4 (by simp))
    obtain ⟨g5a, g5b, g5c⟩ := encIndex_glyph c5 (hg c5 (by simp))
    obtain ⟨g6a, g6b, g6c⟩ := encIndex_glyph c6 (hg c6 (by simp))
    have q1 : encIndex c1 / 16 < 4 := by omega
    have q2 : encIndex c2 / 4 < 16 := by omega
    have q3 : encIndex c3 < 64 := by omega
    have q5 : encIndex c5 / 16 < 4 := by omega
    have q6 : encIndex c6 / 4 < 16 := by omega
    have henc : encode_text [c0, c1, c2, c3, c4, c5, c6] (List.replicate 8 0) =
        [encIndex c0 * 4 + encIndex c1 / 16, encIndex c1 % 16 * 16 + encIndex c2 / 4, encIndex c2 % 4 * 64 + encIndex c3, encIndex c4 * 4 + encIndex c5 / 16, encIndex c5 % 16 * 16 + encIndex c6 / 4, encIndex c6 % 4 * 64, 0, 0] := by
      simp [encode_text, encode_text_loop, List.getD, enc_lo2, enc_hi4, enc_lo4, enc_hi6, enc_lo6, enc_hi8, enc_lo8, lor4, lor16, lor64, g0b, g1b, g2b, g3b, g4b, g5b, g6b, q1, q2, q3, q5, q6]
    rw [henc]
    show decode_text_loop (63 + 1) _ _ _ = _
    rw [dstep_push 63 _ _ _ (encIndex c0) (by norm_num) (by norm_num)
        (by simp [List.getD]; try (rw [and63_eq_mod, Nat.shiftRight_eq_div_pow]); try norm_num; try omega)
        (by omega) (by norm_num)]
    show decode_text_loop (62 + 1) _ _ _ = _
    rw [dstep_push 62 _ _ _ (encIndex c1) (by norm_num) (by norm_num)
        (by simp [List.getD]; try (rw [and63_eq_mod, Nat.shiftRight_eq_div_pow]); try norm_num; try omega)
        (by omega) (by norm_num)]
    show decode_text_loop (61 + 1) _ _ _ = _
    rw [dstep_push 61 _ _ _ (encIndex c2) (by norm_num) (by norm_num)
        (by simp [List.getD]; try (rw [and63_eq_mod, Nat.shiftRight_eq_div_pow]); try norm_num; try omega)
        (by omega) (by norm_num)]
    show decode_text_loop (60 + 1) _ _ _ = _
    rw [dstep_push 60 _ _ _ (encIndex c3) (by norm_num) (by norm_num)
        (by simp [List.getD]; try (rw [and63_eq_mod, Nat.shiftRight_eq_div_pow]); try norm_num; try omega)
        (by omega) (by norm_num)]
    show decode_text_loop (59 + 1) _ _ _ = _
    rw [dstep_push 59 _ _ _ (encIndex c4) (by norm_num) (by norm_num)
        (by simp [List.getD]; try (rw [and63_eq_mod, Nat.shiftRight_eq_div_pow]); try norm_num; try omega)
        (by omega) (by norm_num)]
    show decode_text_loop (58 + 1) _ _ _ = _
    rw [dstep_push 58 _ _ _ (encIndex c5) (by norm_num) (by norm_num)
        (by simp [List.getD]; try (rw [and63_eq_mod, Nat.shiftRight_eq_div_pow]); try norm_num; try omega)
        (by omega) (by norm_num)]
    show decode_text_loop (57 + 1) _ _ _ = _
    rw [dstep_push 57 _ _ _ (encIndex c6) (by norm_num) (by norm_num)
        (by simp [List.getD]; try (rw [and63_eq_mod, Nat.shiftRight_eq_div_pow]); try norm_num; try omega)
        (by omega) (by norm_num)]
    show decode_text_loop (56 + 1) _ _ _ = _
    rw [dstep_zero 56 _ _ _ (by norm_num) (by norm_num)
        (by simp [List.getD]; try (rw [and63_eq_mod, Nat.shiftRight_eq_div_pow]); try norm_num; try omega)]
    rw [g0c, g1c, g2c, g3c, g4c, g5c, g6c] <;> simp
  | c0 :: c1 :: c2 :: c3 :: c4 :: c5 :: c6 :: c7 :: rest, h7, _ => (simp at h7 <;> omega)
theorem encode_text_loop_length (text : List Char) (payload : List Nat) (offset : Nat) :
    (encode_text_loop text payload offset).length = payload.length := by
  induction text generalizing payload offset with
  | nil => rfl
  | cons c text ih =>
    conv_lhs => rw [encode_text_loop]
    dsimp only
    by_cases h : (offset + 6) / 8 ≥ payload.length
    · rw [if_pos h]
    · rw [if_neg h]
      by_cases h2 : offset / 8 < (offset + 6) / 8
      · rw [if_pos h2, ih]
        simp
      · rw [if_neg h2, ih]
        simp

theorem encode_text_length (text : List Char) (payload : List Nat) :
    (encode_text text payload).length = payload.length := by
  unfold encode_text
  rw [encode_text_loop_length]
  simp

/-- `Display` payloads (`Display<'a>` in `src/can.rs`).  `DisplayString`
is a `heapless::String<12>`, modelled as a character list. -/
inductive Display where
  | text (for_radio menu : Bool) (text : List Char) (chunk total_chunks : Nat)
  | unknown (v : List Nat)
deriving Repr, DecidableEq

/-- `From<&[u8]> for Display`. -/
def Display.decode (v : List Nat) : Display :=
  if v.length = 8 then
    .text (v.getD 1 0 >>> 4 == 2) (v.getD 1 0 &&& 0x0f == 6)
      (decode_display_text v) (v.getD 0 0 &&& 0x0f) (v.getD 0 0 >>> 4 + 1)
  else .unknown v

/-- `From<Display> for FramePayload`.  The `usize` values are cast
`as u8` (`% 256`); `total_chunks - 1` is the `usize` subtraction (the
chunk count is nonzero in every frame the code builds). -/
def Display.encode : Display → List Nat
  | .text fr mn t ch tc =>
    ((encode_display_text t).set 0 (((tc - 1) <<< 4 ||| ch) % 256)).set 1
      (((if fr then 2 else 1) <<< 4 |||
        (if !fr && mn then 0x06 else 0x0a)) % 256)
  | .unknown v => v

/-- `RadioStation` payloads: every payload decodes to `Station`. -/
inductive RadioStation where
  | station (text : List Char)
  | unknown (v : List Nat)
deriving Repr, DecidableEq

/-- `From<&[u8]> for RadioStation`. -/
def RadioStation.decode (v : List Nat) : RadioStation := .station (decode_text v)

/-- `From<RadioStation> for FramePayload`: an 8-byte zeroed payload with
the station text packed into all eight bytes. -/
def RadioStation.encode : RadioStation → List Nat
  | .station text => encode_text text (List.replicate 8 0)
  | .unknown v => v

theorem display_text_roundtrip_aux (fr mn : Bool) (text : List Char) (ch tc : Nat)
    (h7 : text.length ≤ 7)
    (hg : ∀ c ∈ text, c ∈ CHAR_MAP_LIST) (hch : ch < 16) (htc1 : 1 ≤ tc) (htc16 : tc ≤ 16)
    (hfm : ¬(fr = true ∧ mn = true)) :
    Display.decode (Display.encode (.text fr mn text ch tc)) = .text fr mn text ch tc := by
  have hb0 : ((tc - 1) <<< 4 ||| ch) % 256 = (tc - 1) * 16 + ch := by
    rw [Nat.shiftLeft_eq]
    norm_num
    rw [lor16 _ _ hch]
    omega
  have hch' : ((tc - 1) * 16 + ch) &&& 15 = ch := by
    rw [and15_eq_mod]
    omega
  have htc' : ((tc - 1) * 16 + ch) >>> 4 + 1 = tc := by
    rw [Nat.shiftRight_eq_div_pow]
    norm_num
    omega
  have htext : decode_text (encode_text text [0, 0, 0, 0, 0, 0]) = text :=
    decode_encode_text6 text h7 hg
  cases fr with
  | true =>
    cases mn with
    | true => exact absurd ⟨rfl, rfl⟩ hfm
    | false =>
      simp [Display.encode, encode_display_text, hb0, Display.decode, encode_text_length,
            List.getD, decode_display_text, hch', htc']
      exact ⟨by decide, htext⟩
  | false =>
    cases mn with
    | true =>
      simp [Display.encode, encode_display_text, hb0, Display.decode, encode_text_length,
            List.getD, decode_display_text, hch', htc']
      exact ⟨by decide, htext⟩
    | false =>
      simp [Display.encode, encode_display_text, hb0, Display.decode, encode_text_length,
            List.getD, decode_display_text, hch', htc']
      exact ⟨by decide, htext⟩
/-- Claim C6 (counterexample): an eight-character glyph string does not
survive the display round-trip.  "ABCDEFGH" is over the glyph set and has
exactly 8 characters — the spec's stated domain — but the display text
region holds only seven 6-bit characters (`char_end >= payload.len()`
stops both loops at bit 42 of 48), so decoding the encoded payload
returns "ABCDEFG". -/
theorem display_codec_eight_char_counterexample :
    ("ABCDEFGH".toList.length = 8 ∧ ∀ c ∈ "ABCDEFGH".toList, c ∈ CHAR_MAP_LIST) ∧
    decode_display_text (encode_display_text "ABCDEFGH".toList) = "ABCDEFG".toList ∧
    "ABCDEFG".toList ≠ "ABCDEFGH".toList := by
  decide

/-- Claim C6 (amended): the display text codec round-trips every string
over the 63-glyph set of at most seven characters (not eight), and
decoding the big-endian payload 0x101A8177D4610A0E yields "ULTIME ". -/
theorem display_codec_roundtrip_amended (s : List Char) (h7 : s.length ≤ 7)
    (hg : ∀ c ∈ s, c ∈ CHAR_MAP_LIST) :
    decode_display_text (encode_display_text s) = s ∧
    decode_display_text [0x10, 0x1A, 0x81, 0x77, 0xD4, 0x61, 0x0A, 0x0E] =
      "ULTIME ".toList := by
  constructor
  · show decode_text (encode_text s (List.replicate 6 0)) = s
    exact decode_encode_text6 s h7 hg
  · decide

/-- Witness for the amended C6 at the in-code test string "BLAH ". -/
theorem display_codec_roundtrip_amended_witness :
    decode_display_text (encode_display_text "BLAH ".toList) = "BLAH ".toList :=
  (display_codec_roundtrip_amended "BLAH ".toList (by decide) (by decide)).1

/-- Claim C4 (counterexample): `RadioSource::Fm` does not round-trip.
Encoding `Fm(1234)` emits four bytes with the frequency at positions 0–1,
but decoding requires six bytes with the frequency at positions 2–3, so
the encoded frame decodes to `Unknown`. -/
theorem radio_source_fm_counterexample :
    RadioSource.decode (RadioSource.encode (RadioSource.fm 1234)) =
      RadioSource.unknown [4, 210, 0, 0] ∧
    RadioSource.unknown [4, 210, 0, 0] ≠ RadioSource.fm 1234 := by
  decide

/-- Claim C4 (amended): decode ∘ encode is the identity on every
recognized vehicle-bus variant except `RadioSource::Fm` (which decodes to
`Unknown`, see the counterexample), and payloads that decode to `Unknown`
round-trip unchanged.  `Display::Text` round-trips when the text has at
most seven glyphs, the chunk index is below 16, the chunk count is
in 1..=16 and the frame is not simultaneously for-radio and menu (the
menu bit is encoded only for non-radio frames); `RadioStation` decodes
every payload to `Station`, so only its `Station` variant is reachable
and its text round-trips below eight glyphs. -/
theorem canbus_codec_roundtrip :
    (BodyComputer.decode (BodyComputer.encode .wakeupRequest) = .wakeupRequest ∧
     BodyComputer.decode (BodyComputer.encode .statusRequest) = .statusRequest ∧
     BodyComputer.decode (BodyComputer.encode .shutDownRequest) = .shutDownRequest ∧
     BodyComputer.decode (BodyComputer.encode .poweringOn) = .poweringOn ∧
     BodyComputer.decode (BodyComputer.encode .active) = .active ∧
     BodyComputer.decode (BodyComputer.encode .aboutToSleep) = .aboutToSleep) ∧
    (∀ v, BodyComputer.decode v = .unknown v →
      BodyComputer.decode (BodyComputer.encode (.unknown v)) = .unknown v) ∧
    Proxi.decode (Proxi.encode .request) = .request ∧
    (∀ v, v.length = 6 → Proxi.decode (Proxi.encode (.response v)) = .response v) ∧
    (∀ v, Proxi.decode v = .unknown v →
      Proxi.decode (Proxi.encode (.unknown v)) = .unknown v) ∧
    (∀ r, r < 65536 → r &&& STEERING_WHEEL_BUTTONS_MASK = r →
      SteeringWheel.decode (SteeringWheel.encode (.buttons r)) = .buttons r) ∧
    (∀ v, SteeringWheel.decode v = .unknown v →
      SteeringWheel.decode (SteeringWheel.encode (.unknown v)) = .unknown v) ∧
    (Bt.decode (Bt.encode .mute) = .mute ∧
     Bt.decode (Bt.encode .phone) = .phone ∧
     Bt.decode (Bt.encode .voice) = .voice ∧
     Bt.decode (Bt.encode .navigation) = .navigation ∧
     Bt.decode (Bt.encode .media) = .media) ∧
    (∀ v, Bt.decode v = .unknown v → Bt.decode (Bt.encode (.unknown v)) = .unknown v) ∧
    (∀ fr mn text ch tc, text.length ≤ 7 → (∀ c ∈ text, c ∈ CHAR_MAP_LIST) →
      ch < 16 → 1 ≤ tc → tc ≤ 16 → ¬(fr = true ∧ mn = true) →
      Display.decode (Display.encode (.text fr mn text ch tc)) = .text fr mn text ch tc) ∧
    (∀ v, v.length ≠ 8 → Display.decode (Display.encode (.unknown v)) = .unknown v) ∧
    (∀ text, text.length ≤ 7 → (∀ c ∈ text, c ∈ CHAR_MAP_LIST) →
      RadioStation.decode (RadioStation.encode (.station text)) = .station text) ∧
    RadioSource.decode (RadioSource.encode .btPlaying) = .btPlaying ∧
    RadioSource.decode (RadioSource.encode .btMuted) = .btMuted ∧
    (∀ v, RadioSource.decode v = .unknown v →
      RadioSource.decode (RadioSource.encode (.unknown v)) = .unknown v) := by
  refine ⟨by decide, fun v h => h, by decide, ?_, fun v h => h, ?_, fun v h => h,
    by decide, fun v h => h, display_text_roundtrip_aux, ?_, ?_,
    by decide, by decide, fun v h => h⟩
  · intro v hv
    have hne : v ≠ [] := by
      rintro rfl
      simp at hv
    simp [Proxi.decode, Proxi.encode, hne, hv]
  · intro r hr hmask
    simp [SteeringWheel.decode, SteeringWheel.encode, List.getD]
    rw [show r / 256 * 256 + r % 256 = r from by omega]
    exact hmask
  · intro v hv8
    simp [Display.decode, Display.encode, hv8]
  · intro text h7 hg
    show RadioStation.station (decode_text (encode_text text (List.replicate 8 0))) =
      RadioStation.station text
    rw [decode_encode_text8 text h7 hg]

/-- Witness for the amended C4: concrete instances of the
hypothesis-bearing clauses (a steering-wheel bitmap and a display text
frame). -/
theorem canbus_codec_roundtrip_witness :
    SteeringWheel.decode (SteeringWheel.encode (.buttons 0x0400)) = .buttons 0x0400 ∧
    Display.decode (Display.encode (.text true false "BLAH ".toList 3 10)) =
      .text true false "BLAH ".toList 3 10 ∧
    Proxi.decode (Proxi.encode (.response [1, 2, 3, 4, 5, 6])) = .response [1, 2, 3, 4, 5, 6] := by
  refine ⟨?_, ?_, ?_⟩
  · exact canbus_codec_roundtrip.2.2.2.2.2.1 0x0400 (by decide) (by decide)
  · exact canbus_codec_roundtrip.2.2.2.2.2.2.2.2.2.1 true false "BLAH ".toList 3 10
      (by decide) (by decide) (by decide) (by decide) (by decide) (by decide)
  · exact canbus_codec_roundtrip.2.2.2.1 [1, 2, 3, 4, 5, 6] (by decide)

end FiatA2dp
